import Mathlib

/-!
# Four-in-a-row session server (`src/server.js`)

A shallow embedding of the game server: the board functions (`createBoard`,
`isValidMove`, `makeMove`, `checkWin`, `isBoardFull`) and the three socket
handlers (`connection`, `make_move`, `disconnect`) as pure functions on an
explicit server state, each returning the new state and the list of
addressed notifications it emits.

Numbers sent by a client (`col`, `player`) and cell values are `Int`.
Socket ids and game ids are `String`. The board functions are given a second
time for a `col` payload that is a string (`isValidMoveStr`, `makeMoveStr`,
`checkWinStr`), where `col + dc * i` is a concatenation.
-/

namespace Server

/-! ## Configuration constants (lines 18-20) -/

/-- The constant `ROWS = 6`. -/
abbrev ROWS : Nat := 6

/-- The constant `COLS = 7`. -/
abbrev COLS : Nat := 7

/-- The constant `WIN_CONDITION = 4`. -/
abbrev WIN_CONDITION : Nat := 4

/-! ## Board -/

/-- A board is the `ROWS` x `COLS` array of arrays built by `createBoard`; row 0
is the top row, a cell holds `0` (empty) or a player number. -/
abbrev Board : Type := Fin ROWS → Fin COLS → Int

/-- The value `{ row, col }` returned by `makeMove`. -/
structure Placement where
  row : Int
  col : Int
deriving DecidableEq, Repr

/-- The read `board[r][c]` for a row index `r` that exists: `none` stands for
`undefined`, the result of indexing a row array outside `0 .. COLS-1`. Every
access in the source either has `0 <= r < ROWS` by its loop bounds or is
guarded by the range test of `checkWin`. -/
def cellAt (board : Board) (r c : Int) : Option Int :=
  if h : 0 ≤ r ∧ r < ROWS ∧ 0 ≤ c ∧ c < COLS then
    some (board ⟨r.toNat, by omega⟩ ⟨c.toNat, by omega⟩)
  else none

/-- The write `board[r][c] = v`, executed by `makeMove` only after `board[r][c] === 0`
held, hence only on an existing cell. -/
def setCell (board : Board) (r c : Int) (v : Int) : Board :=
  fun i j => if (i.val : Int) = r ∧ (j.val : Int) = c then v else board i j

/-- The function `createBoard()`: `Array(ROWS).fill(null).map(() => Array(COLS).fill(0))`. -/
def createBoard : Board := fun _ _ => 0

/-- The function `isValidMove(board, col)`. -/
def isValidMove (board : Board) (col : Int) : Bool :=
  if col < 0 ∨ col ≥ COLS then false
  else cellAt board 0 col == some 0

/-- The loop of `makeMove`: with last argument `n` it runs the iterations `r = n-1, n-2, .., 0`.
It returns the board after the call and the returned value (`none` is
`null`). -/
def makeMoveLoop (board : Board) (col player : Int) : Nat → Board × Option Placement
  | 0 => (board, none)
  | r + 1 =>
    if cellAt board r col = some 0 then
      (setCell board r col player, some ⟨r, col⟩)
    else makeMoveLoop board col player r

/-- The function `makeMove(board, col, player)`: the loop starts at `r = ROWS - 1`. -/
def makeMove (board : Board) (col player : Int) : Board × Option Placement :=
  makeMoveLoop board col player ROWS

/-- The test in both inner loops of `checkWin`:
`r >= 0 && r < ROWS && c >= 0 && c < COLS && board[r][c] === player`. -/
def marked (board : Board) (player r c : Int) : Bool :=
  decide (r ≥ 0) && decide (r < ROWS) && decide (c ≥ 0) && decide (c < COLS)
    && (cellAt board r c == some player)

/-- One inner loop of `checkWin`, from index `i` with `n` iterations left: the
number of `count++` executed before the `break` (or the end of the loop).
The cell inspected at index `i` is `(row + dr * i, col + dc * i)`. -/
def countRun (board : Board) (player row col dr dc : Int) : Nat → Int → Nat
  | 0, _ => 0
  | n + 1, i =>
    if marked board player (row + dr * i) (col + dc * i) then
      1 + countRun board player row col dr dc n (i + 1)
    else 0

/-- The `directions` array of `checkWin`. -/
def directions : List (Int × Int) := [(0, 1), (1, 0), (1, 1), (1, -1)]

/-- The value of `count` at the end of the body of the outer loop of
`checkWin` for the direction `(dr, dc)`: 1 for the anchor, plus the run in the
direction, plus the run in the opposite direction
(`row - dr * i = row + (-dr) * i`). Both loops run `i = 1 .. WIN_CONDITION-1`. -/
def countAxis (board : Board) (player row col dr dc : Int) : Nat :=
  1 + countRun board player row col dr dc (WIN_CONDITION - 1) 1
    + countRun board player row col (-dr) (-dc) (WIN_CONDITION - 1) 1

/-- The function `checkWin(board, player, lastMove)`. -/
def checkWin (board : Board) (player : Int) : Option Placement → Bool
  | none => false
  | some lastMove =>
    directions.any fun d =>
      decide (countAxis board player lastMove.row lastMove.col d.1 d.2 ≥ WIN_CONDITION)

/-- The function `isBoardFull(board)`: `board[0].every(cell => cell !== 0)`. -/
def isBoardFull (board : Board) : Bool :=
  (List.finRange COLS).all fun c => board ⟨0, by decide⟩ c != 0

/-- Build a board from its rows, top row first (cells not listed are empty). -/
def ofRows (rows : List (List Int)) : Board :=
  fun i j => (rows.getD i.val []).getD j.val 0

/-! ## Server state -/

/-- The notifications the handlers emit (`game_start`, `move_made`,
`game_over`, `invalid_move`, `opponent_disconnected`), with their payloads. -/
inductive Msg where
  | game_start (playerNumber startingPlayer : Int) (board : Board)
  | move_made (board : Board) (nextPlayer : Int)
  | game_over (board : Board) (winner : Option Int)
  | invalid_move (reason : String)
  | opponent_disconnected

/-- A notification together with the socket id it is addressed to
(`io.to(id).emit(..)`, or `socket.emit(..)` for the submitting socket). -/
abbrev Out : Type := String × Msg

/-- The `players` object of a game: `{ 1: socketId, 2: socketId }`. -/
structure Players where
  p1 : String
  p2 : String
deriving DecidableEq, Repr

/-- The read `game.players[n]`: `none` is `undefined`, for a key other than 1 and 2. -/
def Players.get (ps : Players) (n : Int) : Option String :=
  if n = 1 then some ps.p1 else if n = 2 then some ps.p2 else none

/-- One value of `activeGames`: `{ board, players, turn, lastMove }`. -/
structure Game where
  board : Board
  players : Players
  turn : Int
  lastMove : Option Placement

/-- The server state: the `waitingPlayers` array (the sockets, by id), the
`activeGames` object (its keys in insertion order) and the `gameId` property
of every socket (`none` while it is unset). A socket is identified by its
`id`, which socket.io makes unique per connection. -/
structure State where
  waitingPlayers : List String
  activeGames : List (String × Game)
  gameIdOf : String → Option String

/-- The state at start-up: `waitingPlayers = []`, `activeGames = {}`. -/
def State.init : State := ⟨[], [], fun _ => none⟩

/-- The read `activeGames[gameId]`; `none` is `undefined`. -/
def regGet (gameId : String) : List (String × Game) → Option Game
  | [] => none
  | (k, g) :: rest => if k = gameId then some g else regGet gameId rest

/-- The write `activeGames[gameId] = game`: an existing key keeps its place and takes the
new value, a new key is added at the end. -/
def regSet (gameId : String) (game : Game) : List (String × Game) → List (String × Game)
  | [] => [(gameId, game)]
  | (k, g) :: rest =>
    if k = gameId then (k, game) :: rest else (k, g) :: regSet gameId game rest

/-- The statement `delete activeGames[gameId]`. -/
def regDel (gameId : String) (reg : List (String × Game)) : List (String × Game) :=
  reg.filter fun kg => kg.1 != gameId

/-- The texts of the four `invalid_move` notifications, in the order of the
checks of the `make_move` handler. -/
def msgNotInGame : String := "No estás en un juego activo."

/-- Text of the turn check. -/
def msgWrongTurn : String := "No es tu turno."

/-- Text of the player check. -/
def msgWrongPlayer : String := "No eres el jugador correcto para este turno."

/-- Text of the column check. -/
def msgInvalidColumn : String := "Columna llena o inválida."

/-! ## Handlers -/

/-- The body of `io.on('connection', ..)` for the socket `id` (lines 102-138). -/
def onConnection (s : State) (id : String) : State × List Out :=
  match s.waitingPlayers with
  | opponent :: rest =>
    let gameId := id ++ "-" ++ opponent
    let game : Game :=
      { board := createBoard, players := ⟨opponent, id⟩, turn := 1, lastMove := none }
    let gameIdOf1 : String → Option String := fun x => if x = id then some gameId else s.gameIdOf x
    let gameIdOf2 : String → Option String := fun x => if x = opponent then some gameId else gameIdOf1 x
    ({ waitingPlayers := rest,
       activeGames := regSet gameId game s.activeGames,
       gameIdOf := gameIdOf2 },
     [(opponent, Msg.game_start 1 1 game.board), (id, Msg.game_start 2 1 game.board)])
  | [] => ({ s with waitingPlayers := s.waitingPlayers ++ [id] }, [])

/-- The read `activeGames[socket.gameId]` for the socket `id`: the key and the game.
An unset `gameId` finds nothing: every key of `activeGames` contains `-`. -/
def gameOf (s : State) (id : String) : Option (String × Game) :=
  match s.gameIdOf id with
  | none => none
  | some gameId =>
    match regGet gameId s.activeGames with
    | none => none
    | some game => some (gameId, game)

/-- The part of the `make_move` handler after the four checks (lines 171-192):
the move is made on `game.board`, stored in `game.lastMove`, and the outcome is
notified to both players. The game object is the one held in `activeGames`
under `gameId`, so its mutation is a write to that entry. -/
def applyMove (s : State) (gameId : String) (game : Game) (col player : Int) :
    State × List Out :=
  let moved := makeMove game.board col player
  let game1 : Game := { game with board := moved.1, lastMove := moved.2 }
  if checkWin game1.board player game1.lastMove then
    ({ s with activeGames := regSet gameId game1 s.activeGames },
     [(game1.players.p1, Msg.game_over game1.board (some player)),
      (game1.players.p2, Msg.game_over game1.board (some player))])
  else if isBoardFull game1.board then
    ({ s with activeGames := regSet gameId game1 s.activeGames },
     [(game1.players.p1, Msg.game_over game1.board none),
      (game1.players.p2, Msg.game_over game1.board none)])
  else
    let game2 : Game := { game1 with turn := if player = 1 then 2 else 1 }
    ({ s with activeGames := regSet gameId game2 s.activeGames },
     [(game2.players.p1, Msg.move_made game2.board game2.turn),
      (game2.players.p2, Msg.move_made game2.board game2.turn)])

/-- The `make_move` handler of the socket `id` for the payload
`{ col, player }` (lines 141-197). -/
def onMakeMove (s : State) (id : String) (col player : Int) : State × List Out :=
  match gameOf s id with
  | none => (s, [(id, Msg.invalid_move msgNotInGame)])
  | some (gameId, game) =>
    if game.turn ≠ player then (s, [(id, Msg.invalid_move msgWrongTurn)])
    else if (player = 1 ∧ id ≠ game.players.p1) ∨ (player = 2 ∧ id ≠ game.players.p2) then
      (s, [(id, Msg.invalid_move msgWrongPlayer)])
    else if !isValidMove game.board col then (s, [(id, Msg.invalid_move msgInvalidColumn)])
    else applyMove s gameId game col player

/-- The `disconnect` handler of the socket `id` (lines 201-222). The tests
`if (gameId && ..)` and `if (opponentSocketId)` are false for the empty
string. -/
def onDisconnect (s : State) (id : String) : State × List Out :=
  let waiting := s.waitingPlayers.filter fun x => x != id
  match s.gameIdOf id with
  | none => ({ s with waitingPlayers := waiting }, [])
  | some gameId =>
    if gameId = "" then ({ s with waitingPlayers := waiting }, [])
    else
      match regGet gameId s.activeGames with
      | none => ({ s with waitingPlayers := waiting }, [])
      | some game =>
        let opponentSocketId := if id = game.players.p1 then game.players.p2 else game.players.p1
        ({ s with waitingPlayers := waiting, activeGames := regDel gameId s.activeGames },
         if opponentSocketId = "" then [] else [(opponentSocketId, Msg.opponent_disconnected)])

/-- The events the server handles. -/
inductive Event where
  | connect (id : String)
  | move (id : String) (col player : Int)
  | disconnect (id : String)

/-- Handling one event. -/
def step (s : State) : Event → State × List Out
  | .connect id => onConnection s id
  | .move id col player => onMakeMove s id col player
  | .disconnect id => onDisconnect s id

/-- The state after handling a list of events in order. -/
def run (s : State) : List Event → State
  | [] => s
  | e :: es => run (step s e).1 es

/-- A state the server can be in: reached from start-up by handling events. -/
def Reachable (s : State) : Prop := ∃ es : List Event, run State.init es = s

/-! ## Notions used to state the properties -/

/-- Gravity: in every column, no empty cell lies below a non-empty cell (a
greater row index is lower on the board). -/
def Gravity (b : Board) : Prop :=
  ∀ (c : Fin COLS) (r r' : Fin ROWS), r < r' → b r c ≠ 0 → b r' c ≠ 0

/-- The board after a list of `makeMove(board, col, player)` calls, each given
as `(col, player)`, made in order. -/
def playMoves (b : Board) : List (Int × Int) → Board
  | [] => b
  | m :: ms => playMoves (makeMove b m.1 m.2).1 ms

/-- Whether a notification is an `invalid_move`. -/
def Msg.isInvalidMove : Msg → Bool
  | .invalid_move _ => true
  | _ => false

/-- Whether a notification is a `game_over`. -/
def Msg.isGameOver : Msg → Bool
  | .game_over _ _ => true
  | _ => false

/-- A submission is rejected when the handler emits an `invalid_move`. -/
def rejected (out : List Out) : Bool := out.any fun o => o.2.isInvalidMove

/-- Every game of the registry has `turn` equal to 1 or 2. -/
def TurnOk (s : State) : Prop :=
  ∀ x ∈ s.activeGames, x.2.turn = 1 ∨ x.2.turn = 2

/-! ## Example states -/

/-- The state after the sockets `A` and `B` connect, in this order: one game,
under the key `B-A`, with `A` as player 1 and `B` as player 2. -/
def pairedAB : State := run State.init [.connect "A", .connect "B"]

/-- The game created when `B` is paired with the waiting `A`. -/
def newGameAB : Game :=
  { board := createBoard, players := ⟨"A", "B"⟩, turn := 1, lastMove := none }

/-- The game of `A` and `B` after `A` has dropped three marks in column 3 and
`B` three marks in column 4, alternately; `A` is to move. -/
def threeEachAB : State :=
  run pairedAB [.move "A" 3 1, .move "B" 4 2, .move "A" 3 1, .move "B" 4 2,
    .move "A" 3 1, .move "B" 4 2]

/-- The events that submit the moves `(socket, col, player)` of a list, in
order. -/
def moveEvents (subs : List (String × Int × Int)) : List Event :=
  subs.map fun m => Event.move m.1 m.2.1 m.2.2

/-- The board of the game the socket `id` is bound to (the empty board when
there is none). -/
def boardOf (s : State) (id : String) : Board :=
  match gameOf s id with
  | some (_, g) => g.board
  | none => createBoard

/-! ## Notions for matchmaking, sessions and counting -/

/-- The game id computed at pairing (line 104): `socket.id + '-' +
opponentSocket.id`, for the arriving socket and the waiting one. -/
def gameIdFor (arriving waiting : String) : String := arriving ++ "-" ++ waiting

/-- The game object built at pairing (lines 107-115) for the waiting socket
(player 1) and the arriving socket (player 2). -/
def newGame (waiting arriving : String) : Game :=
  { board := createBoard, players := ⟨waiting, arriving⟩, turn := 1, lastMove := none }

/-- The notifications emitted for each event of a list, handled in order. -/
def trace (s : State) : List Event → List (List Out)
  | [] => []
  | e :: es => (step s e).2 :: trace (step s e).1 es

/-- The arrivals of a list taken two by two, in order: `(first, second)`. -/
def pairUp : List String → List (String × String)
  | a :: b :: rest => (a, b) :: pairUp rest
  | _ => []

/-- The socket ids of the `connect` events of a list, in order. -/
def connectIds : List Event → List String
  | [] => []
  | .connect id :: es => id :: connectIds es
  | _ :: es => connectIds es

/-- The number of cells of the board that hold the value `p`. -/
def countMarks (b : Board) (p : Int) : Nat :=
  (Finset.univ.filter fun c : Fin ROWS × Fin COLS => b c.1 c.2 = p).card

/-- The number of non-empty cells of the board. -/
def filled (b : Board) : Nat :=
  (Finset.univ.filter fun c : Fin ROWS × Fin COLS => b c.1 c.2 ≠ 0).card

/-- Full-board scan, from the words of the specification: somewhere on the
board there are 4 consecutive in-bounds cells along one of the four axes that
all hold the mark of `p`. A run is given by its first cell `(r, c)` and a
direction. -/
def hasFourAnywhere (b : Board) (p : Int) : Bool :=
  (List.range ROWS).any fun r => (List.range COLS).any fun c =>
    directions.any fun d => (List.range WIN_CONDITION).all fun j =>
      cellAt b ((r : Int) + d.1 * (j : Int)) ((c : Int) + d.2 * (j : Int)) == some p

/-- The state `s` holds, under the key `gid`, the game `g` of the sockets `a`
(player 1) and `b` (player 2), and both sockets have `gid` as their `gameId`. -/
def Hosts (s : State) (gid : String) (g : Game) (a b : String) : Prop :=
  s.gameIdOf a = some gid ∧ s.gameIdOf b = some gid ∧
    regGet gid s.activeGames = some g ∧ g.players = ⟨a, b⟩

/-- The socket `x` is not bound to any game of the registry: its `gameId` is
unset and it is neither player of any game. -/
def Unbound (s : State) (x : String) : Prop :=
  s.gameIdOf x = none ∧
    ∀ kg ∈ s.activeGames, x ≠ kg.2.players.p1 ∧ x ≠ kg.2.players.p2

/-- The invariant of matchmaking, relative to the sockets `fut` that have not
connected yet: they are neither waiting nor bound, the waiting sockets are not
bound, at most one socket waits, and the two players of a game differ. -/
def QueueInv (s : State) (fut : List String) : Prop :=
  (∀ x ∈ fut, x ∉ s.waitingPlayers ∧ Unbound s x) ∧
    (∀ x ∈ s.waitingPlayers, Unbound s x) ∧
    s.waitingPlayers.length ≤ 1 ∧
    ∀ kg ∈ s.activeGames, kg.2.players.p1 ≠ kg.2.players.p2

/-- Whether an event is a `connect`. -/
def Event.isConnect : Event → Bool
  | .connect _ => true
  | _ => false

/-- Every `gameId` set on a socket is a non-empty string. -/
def GameIdsOk (s : State) : Prop :=
  ∀ x gid, s.gameIdOf x = some gid → gid ≠ ""

/-- The notifications of a run of arrivals paired two by two: nothing for the
first socket of a pair, which waits, and `game_start` to both for the second. -/
def pairingOutputs : List (String × String) → List (List Out)
  | [] => []
  | p :: ps =>
    [] :: [(p.1, Msg.game_start 1 1 createBoard), (p.2, Msg.game_start 2 1 createBoard)]
      :: pairingOutputs ps

/-- The registry entries created for a list of pairs `(first, second)`: the
key built from the arriving second socket and the waiting first one, and the
new game with the first socket as player 1. -/
def pairedSessions (ps : List (String × String)) : List (String × Game) :=
  ps.map fun p => (gameIdFor p.2 p.1, newGame p.1 p.2)

/-- The turn and mark-count invariant of a game: `turn` is 1 or 2, and player 1
has as many marks as player 2 when it is the turn of player 1, one more when
it is the turn of player 2. -/
def TurnCount (g : Game) : Prop :=
  (g.turn = 1 ∨ g.turn = 2) ∧
    (countMarks g.board 1 : Int) - (countMarks g.board 2 : Int) = if g.turn = 1 then 0 else 1

/-- Whether a notification is a `game_over` with a winner. -/
def Msg.isWin : Msg → Bool
  | .game_over _ (some _) => true
  | _ => false

/-- A drawn game of `A` and `B`: 42 alternating submissions `(socket, col,
player)` that fill the board without a win. The final board is, top row first,
`2221211`, `1122121`, `1212121`, `2112112`, `2121212`, `2221121`. -/
def drawSubs : List (String × Int × Int) :=
  [
    ("A", 4, 1), ("B", 1, 2), ("A", 6, 1), ("B", 2, 2), ("A", 1, 1), ("B", 0, 2),
    ("A", 1, 1), ("B", 4, 2), ("A", 4, 1), ("B", 2, 2), ("A", 4, 1), ("B", 1, 2),
    ("A", 3, 1), ("B", 6, 2), ("A", 3, 1), ("B", 3, 2), ("A", 1, 1), ("B", 0, 2),
    ("A", 4, 1), ("B", 6, 2), ("A", 6, 1), ("B", 1, 2), ("A", 2, 1), ("B", 3, 2),
    ("A", 6, 1), ("B", 0, 2), ("A", 6, 1), ("B", 4, 2), ("A", 2, 1), ("B", 5, 2),
    ("A", 5, 1), ("B", 3, 2), ("A", 3, 1), ("B", 2, 2), ("A", 5, 1), ("B", 5, 2),
    ("A", 0, 1), ("B", 2, 2), ("A", 0, 1), ("B", 5, 2), ("A", 5, 1), ("B", 0, 2)]

/-! ## A `col` payload that is a string

The handler passes `data.col` on as the client sent it. When it is a string,
`row[col]` reads an element only if the string is the decimal notation of an
index, `col - dc * i` is a number, and `col + dc * i` is a string. -/

/-- The array index named by a string property key: `some n` when the string
is the decimal notation of the natural number `n` (digits only, no leading
zero unless it is `0` itself), as `3` for the string `3`; `none` for every other
string, for which `row[key]` is `undefined`. -/
def strIndex (s : String) : Option Nat :=
  if s.data ≠ [] ∧ s.data.all Char.isDigit ∧
      (s.data.head? ≠ some '0' ∨ s.data.length = 1) then
    some (s.data.foldl (fun n c => 10 * n + (c.toNat - '0'.toNat)) 0)
  else none

/-- The value `{ row, col }` returned by `makeMove` for a string `col`: the
string is the decimal notation of `colIndex`, since a cell was read under it. -/
structure PlacementStr where
  row : Int
  colIndex : Nat
deriving DecidableEq, Repr

/-- The function `isValidMove(board, col)` for a string `col`. For the decimal
notation of `n` the comparisons `col < 0` and `col >= COLS` are those of `n` and
`board[0][col]` is the cell `(0, n)`: the result is that for the number `n`.
For any other string `board[0][col]` is `undefined`, so the result is `false`
whatever the two comparisons give. -/
def isValidMoveStr (board : Board) (col : String) : Bool :=
  match strIndex col with
  | some n => isValidMove board n
  | none => false

/-- The function `makeMove(board, col, player)` for a string `col`. For the
decimal notation of `n` every `board[r][col]` is the cell `(r, n)`: the loop
runs as for the number `n`, and the placement returned carries the string. For
any other string every read is `undefined` and `null` is returned. -/
def makeMoveStr (board : Board) (col : String) (player : Int) :
    Board × Option PlacementStr :=
  match strIndex col with
  | some n =>
    ((makeMove board n player).1,
      (makeMove board n player).2.map fun p => ⟨p.row, n⟩)
  | none => (board, none)

/-- The test of the first inner loop of `checkWin` when `c` is a string:
`r >= 0 && r < ROWS && c >= 0 && c < COLS && board[r][c] === player`. The cell
`board[r][c]` exists only for the decimal notation of an index `n`, and then
`c >= 0 && c < COLS` is `n < COLS`. -/
def markedStr (board : Board) (player r : Int) (c : String) : Bool :=
  decide (r ≥ 0) && decide (r < ROWS) &&
    match strIndex c with
    | some n => decide (n < COLS) && (cellAt board r n == some player)
    | none => false

/-- The first inner loop of `checkWin` for a string `lastMove.col`: the cell
inspected at index `i` is `(row + dr * i, col + dc * i)`, where `col + dc * i`
is the string `col` followed by the decimal notation of the number `dc * i`. -/
def countRunStr (board : Board) (player row : Int) (col : String) (dr dc : Int) :
    Nat → Int → Nat
  | 0, _ => 0
  | n + 1, i =>
    if markedStr board player (row + dr * i) (col ++ toString (dc * i)) then
      1 + countRunStr board player row col dr dc n (i + 1)
    else 0

/-- The value of `count` after both inner loops of `checkWin` for the placement
`{ row, col }` whose `col` is the decimal notation of `n`: the first loop works on
strings, the second on the numbers `n - dc * i`. -/
def countAxisStr (board : Board) (player row : Int) (n : Nat) (dr dc : Int) : Nat :=
  1 + countRunStr board player row (toString n) dr dc (WIN_CONDITION - 1) 1
    + countRun board player row (n : Int) (-dr) (-dc) (WIN_CONDITION - 1) 1

/-- The function `checkWin(board, player, lastMove)` for a placement whose `col`
is a string. -/
def checkWinStr (board : Board) (player : Int) : Option PlacementStr → Bool
  | none => false
  | some lastMove =>
    directions.any fun d =>
      decide (countAxisStr board player lastMove.row lastMove.colIndex d.1 d.2
        ≥ WIN_CONDITION)

/-! ## States with colliding game ids -/

/-- The state after `b-c` and then `a` connect: one game, under the key `a-b-c`,
with `b-c` as player 1 and `a` as player 2. -/
def pairedCollide : State := run State.init [.connect "b-c", .connect "a"]

/-- The state after `a` disconnects from that game and then `c` and `a-b`
connect: one game, again under the key `a-b-c`, of `c` and `a-b`. -/
def rematchedCollide : State :=
  run (onDisconnect pairedCollide "a").1 [.connect "c", .connect "a-b"]

/-! ## Cell access -/

theorem cellAt_fin (b : Board) (i : Fin ROWS) (j : Fin COLS) :
    cellAt b (i.val : Int) (j.val : Int) = some (b i j) := by
  have hi := i.isLt
  have hj := j.isLt
  have h : 0 ≤ (i.val : Int) ∧ (i.val : Int) < ROWS ∧ 0 ≤ (j.val : Int) ∧ (j.val : Int) < COLS := by
    refine ⟨by omega, by omega, by omega, by omega⟩
  unfold cellAt
  rw [dif_pos h]
  simp

theorem cellAt_some_range {b : Board} {r c v : Int} (h : cellAt b r c = some v) :
    0 ≤ r ∧ r < ROWS ∧ 0 ≤ c ∧ c < COLS := by
  unfold cellAt at h
  split at h
  · assumption
  · cases h

theorem cellAt_some_fin {b : Board} {r c v : Int} (h : cellAt b r c = some v) :
    ∃ (i : Fin ROWS) (j : Fin COLS), (i.val : Int) = r ∧ (j.val : Int) = c ∧ b i j = v := by
  have hr := cellAt_some_range h
  refine ⟨⟨r.toNat, by omega⟩, ⟨c.toNat, by omega⟩, by simp; omega, by simp; omega, ?_⟩
  unfold cellAt at h
  rw [dif_pos hr] at h
  exact Option.some.inj h

theorem cellAt_setCell (b : Board) (r c v r' c' : Int) :
    cellAt (setCell b r c v) r' c' =
      if r' = r ∧ c' = c then (cellAt b r' c').map (fun _ => v) else cellAt b r' c' := by
  unfold cellAt
  by_cases h : 0 ≤ r' ∧ r' < ROWS ∧ 0 ≤ c' ∧ c' < COLS
  · have e1 : ((r'.toNat : Nat) : Int) = r' := by omega
    have e2 : ((c'.toNat : Nat) : Int) = c' := by omega
    simp only [dif_pos h, setCell, e1, e2, Option.map_some']
    split <;> rfl
  · simp only [dif_neg h]
    split <;> rfl


/-! ## The board functions -/

theorem makeMoveLoop_cases (b : Board) (col player : Int) (n : Nat) :
    (makeMoveLoop b col player n = (b, none) ∧
        ∀ r : Nat, r < n → cellAt b r col ≠ some 0) ∨
      ∃ r : Nat, r < n ∧ cellAt b r col = some 0 ∧
        (∀ r' : Nat, r < r' → r' < n → cellAt b r' col ≠ some 0) ∧
        makeMoveLoop b col player n = (setCell b r col player, some ⟨r, col⟩) := by
  induction n with
  | zero => exact Or.inl ⟨rfl, fun r hr => absurd hr (Nat.not_lt_zero r)⟩
  | succ n ih =>
    by_cases h : cellAt b n col = some 0
    · refine Or.inr ⟨n, Nat.lt_succ_self n, h, ?_, ?_⟩
      · intro r' h1 h2
        omega
      · simp [makeMoveLoop, h]
    · rcases ih with ⟨e, hall⟩ | ⟨r, hr, h0, hmax, e⟩
      · refine Or.inl ⟨by simp [makeMoveLoop, h, e], ?_⟩
        intro r hr
        rcases Nat.lt_succ_iff_lt_or_eq.mp hr with h1 | h1
        · exact hall r h1
        · subst h1
          exact h
      · refine Or.inr ⟨r, Nat.lt_succ_of_lt hr, h0, ?_, by simp [makeMoveLoop, h, e]⟩
        intro r' h1 h2
        rcases Nat.lt_succ_iff_lt_or_eq.mp h2 with h3 | h3
        · exact hmax r' h1 h3
        · subst h3
          exact h

theorem makeMove_cases (b : Board) (col player : Int) :
    (makeMove b col player = (b, none) ∧ ∀ r : Int, cellAt b r col ≠ some 0) ∨
      ∃ r : Int, cellAt b r col = some 0 ∧
        (∀ r' : Int, r < r' → cellAt b r' col ≠ some 0) ∧
        makeMove b col player = (setCell b r col player, some ⟨r, col⟩) := by
  rcases makeMoveLoop_cases b col player ROWS with ⟨e, hall⟩ | ⟨r, hr, h0, hmax, e⟩
  · refine Or.inl ⟨e, ?_⟩
    intro r' h
    have hr := cellAt_some_range h
    have := hall r'.toNat (by omega)
    rw [Int.toNat_of_nonneg hr.1] at this
    exact this h
  · refine Or.inr ⟨r, h0, ?_, e⟩
    intro r' h1 h
    have hr' := cellAt_some_range h
    have := hmax r'.toNat (by omega) (by omega)
    rw [Int.toNat_of_nonneg hr'.1] at this
    exact this h


theorem isValidMove_eq_true_iff (board : Board) (c : Int) :
    isValidMove board c = true ↔
      ¬ (c < 0 ∨ c ≥ 7 ∨ ∃ v, cellAt board 0 c = some v ∧ v ≠ 0) := by
  unfold isValidMove
  by_cases h : c < 0 ∨ c ≥ (COLS : Int)
  · have h' : c < 0 ∨ c ≥ 7 := h
    rw [if_pos h]
    constructor
    · intro hf
      cases hf
    · intro hn
      exact absurd (h'.elim Or.inl (fun x => Or.inr (Or.inl x))) hn
  · rw [if_neg h]
    have hr : 0 ≤ (0 : Int) ∧ (0 : Int) < ROWS ∧ 0 ≤ c ∧ c < COLS := by
      refine ⟨le_refl 0, by decide, by omega, by omega⟩
    obtain ⟨v0, hc⟩ : ∃ v0, cellAt board 0 c = some v0 := by
      unfold cellAt
      rw [dif_pos hr]
      exact ⟨_, rfl⟩
    rw [hc]
    by_cases hv : v0 = 0
    · subst hv
      refine ⟨fun _ hn => ?_, fun _ => by simp⟩
      rcases hn with h1 | h1 | ⟨v, hv1, hv2⟩
      · exact h (Or.inl h1)
      · exact h (Or.inr h1)
      · exact hv2 (Option.some.inj hv1).symm
    · refine ⟨fun hf => ?_, fun hn => ?_⟩
      · exact absurd (by simpa using hf) hv
      · exact absurd (Or.inr (Or.inr ⟨v0, rfl, hv⟩)) hn

/-- C6: `isValidMove(board, c)` is false exactly when `c < 0`, or `c >= 7`, or
the top cell `board[0][c]` holds a non-zero value, and true exactly in every
other case. -/
theorem isValidMove_spec (board : Board) (c : Int) :
    (isValidMove board c = false ↔
        (c < 0 ∨ c ≥ 7 ∨ ∃ v, cellAt board 0 c = some v ∧ v ≠ 0)) ∧
      (isValidMove board c = true ↔
        ¬ (c < 0 ∨ c ≥ 7 ∨ ∃ v, cellAt board 0 c = some v ∧ v ≠ 0)) := by
  refine ⟨?_, isValidMove_eq_true_iff board c⟩
  rw [← not_iff_not, Bool.not_eq_false, isValidMove_eq_true_iff]

/-- C5: for a column in `[0, 7)` with at least one empty cell,
`makeMove(board, column, player)` returns the placement `(r, column)` where `r`
is the largest row index whose cell in that column was empty before the call;
after the call the cell `(r, column)` equals `player`, and every cell of that
column in a row below `r` (greater index) was non-empty before the call. -/
theorem makeMove_lowest_empty (board : Board) (column player : Int)
    (hcol : 0 ≤ column ∧ column < 7)
    (hempty : ∃ r0 : Int, cellAt board r0 column = some 0) :
    ∃ r : Int,
      (makeMove board column player).2 = some ⟨r, column⟩ ∧
      cellAt board r column = some 0 ∧
      (∀ r' : Int, cellAt board r' column = some 0 → r' ≤ r) ∧
      cellAt (makeMove board column player).1 r column = some player ∧
      (∀ r' : Int, r < r' → r' < 6 →
        ∃ v, cellAt board r' column = some v ∧ v ≠ 0) := by
  rcases makeMove_cases board column player with ⟨_, hall⟩ | ⟨r, h0, hmax, e⟩
  · rcases hempty with ⟨r0, h⟩
    exact absurd h (hall r0)
  · have hr := cellAt_some_range h0
    refine ⟨r, by rw [e], h0, ?_, ?_, ?_⟩
    · intro r' h'
      by_contra hlt
      exact hmax r' (by omega) h'
    · rw [e, cellAt_setCell, if_pos ⟨rfl, rfl⟩, h0]
      rfl
    · intro r' h1 h2
      have hin : 0 ≤ r' ∧ r' < (ROWS : Int) ∧ 0 ≤ column ∧ column < (COLS : Int) :=
        ⟨by omega, h2, hcol.1, hcol.2⟩
      refine ⟨board ⟨r'.toNat, by omega⟩ ⟨column.toNat, by omega⟩, ?_, ?_⟩
      · unfold cellAt
        rw [dif_pos hin]
      · intro hz
        apply hmax r' h1
        unfold cellAt
        rw [dif_pos hin, hz]


/-- Witness for C5: on the empty board, column 3, player 1. -/
theorem makeMove_lowest_empty_witness :
    (0 ≤ (3 : Int) ∧ (3 : Int) < 7) ∧ (∃ r0 : Int, cellAt createBoard r0 3 = some 0) ∧
      ∃ r : Int,
        (makeMove createBoard 3 1).2 = some ⟨r, 3⟩ ∧
        cellAt createBoard r 3 = some 0 ∧
        (∀ r' : Int, cellAt createBoard r' 3 = some 0 → r' ≤ r) ∧
        cellAt (makeMove createBoard 3 1).1 r 3 = some 1 ∧
        (∀ r' : Int, r < r' → r' < 6 →
          ∃ v, cellAt createBoard r' 3 = some v ∧ v ≠ 0) :=
  ⟨by decide, ⟨5, by decide⟩,
    makeMove_lowest_empty createBoard 3 1 (by decide) ⟨5, by decide⟩⟩

theorem setCell_zero_of_cell_zero (b : Board) (r c : Int) (h : cellAt b r c = some 0) :
    setCell b r c 0 = b := by
  funext i j
  unfold setCell
  split
  · rename_i hij
    rw [← hij.1, ← hij.2, cellAt_fin] at h
    exact (Option.some.inj h).symm
  · rfl

theorem makeMove_some_or_unchanged (board : Board) (column player : Int) :
    (isValidMove board column = true →
        ∃ p, (makeMove board column player).2 = some p) ∧
      ((makeMove board column player).2 = none →
        (∀ r : Int, cellAt board r column ≠ some 0) ∧
          (makeMove board column player).1 = board) := by
  rcases makeMove_cases board column player with ⟨e, hall⟩ | ⟨r, h0, hmax, e⟩
  · refine ⟨fun hv => ?_, fun _ => ⟨hall, by rw [e]⟩⟩
    have h1 := (isValidMove_eq_true_iff board column).mp hv
    have hr : 0 ≤ (0 : Int) ∧ (0 : Int) < ROWS ∧ 0 ≤ column ∧ column < COLS := by
      refine ⟨le_refl 0, by decide, ?_, ?_⟩
      · by_contra hc
        exact h1 (Or.inl (by omega))
      · show column < 7
        by_contra hc
        exact h1 (Or.inr (Or.inl (by omega)))
    obtain ⟨v0, hc⟩ : ∃ v0, cellAt board 0 column = some v0 := by
      unfold cellAt
      rw [dif_pos hr]
      exact ⟨_, rfl⟩
    by_cases hv0 : v0 = 0
    · subst hv0
      exact absurd hc (hall 0)
    · exact absurd (Or.inr (Or.inr ⟨v0, hc, hv0⟩)) h1
  · refine ⟨fun _ => ⟨_, by rw [e]⟩, fun hn => ?_⟩
    rw [e] at hn
    cases hn


theorem gravity_createBoard : Gravity createBoard := by
  intro c r r' _ h
  exact absurd rfl h

theorem gravity_makeMove (b : Board) (col player : Int) (hg : Gravity b) :
    Gravity (makeMove b col player).1 := by
  rcases makeMove_cases b col player with ⟨e, _⟩ | ⟨r, h0, hmax, e⟩
  · rw [e]
    exact hg
  · rw [e]
    show Gravity (setCell b r col player)
    intro c r1 r2 hlt hne
    have hlt' : (r1.val : Int) < (r2.val : Int) := by
      have : r1.val < r2.val := hlt
      omega
    by_cases h2 : (r2.val : Int) = r ∧ (c.val : Int) = col
    · exfalso
      have hz : b r2 c = 0 := by
        have := h0
        rw [← h2.1, ← h2.2, cellAt_fin] at this
        exact Option.some.inj this
      have h1 : ¬ ((r1.val : Int) = r ∧ (c.val : Int) = col) := by
        intro h
        omega
      have hne' : b r1 c ≠ 0 := by
        simpa [setCell, h1] using hne
      exact hg c r1 r2 hlt hne' hz
    · have goal_eq : setCell b r col player r2 c = b r2 c := by
        simp [setCell, h2]
      rw [goal_eq]
      by_cases h1 : (r1.val : Int) = r ∧ (c.val : Int) = col
      · intro hz
        apply hmax r2.val (by omega)
        rw [← h1.2, cellAt_fin, hz]
      · have hne' : b r1 c ≠ 0 := by
          simpa [setCell, h1] using hne
        exact hg c r1 r2 hlt hne'

theorem gravity_playMoves (moves : List (Int × Int)) :
    ∀ b : Board, Gravity b → Gravity (playMoves b moves) := by
  induction moves with
  | nil => exact fun b h => h
  | cons m ms ih => exact fun b h => ih _ (gravity_makeMove b m.1 m.2 h)

/-- C8: gravity is an invariant of the board. The board of `createBoard` has
all 42 cells empty and satisfies gravity; `makeMove` on a board satisfying
gravity, for any column and player, gives a board satisfying gravity; hence
every board obtained from `createBoard` by `makeMove` calls satisfies it. -/
theorem gravity_invariant :
    ((∀ (r : Fin ROWS) (c : Fin COLS), createBoard r c = 0) ∧ Gravity createBoard) ∧
      (∀ (b : Board) (column player : Int),
        Gravity b → Gravity (makeMove b column player).1) ∧
      (∀ moves : List (Int × Int), Gravity (playMoves createBoard moves)) :=
  ⟨⟨fun _ _ => rfl, gravity_createBoard⟩, gravity_makeMove,
    fun moves => gravity_playMoves moves createBoard gravity_createBoard⟩

/-- Witness for C8: the step from the empty board by a move in column 3. -/
theorem gravity_invariant_witness :
    Gravity createBoard ∧ Gravity (makeMove createBoard 3 1).1 :=
  ⟨gravity_invariant.1.2, gravity_invariant.2.1 createBoard 3 1 gravity_invariant.1.2⟩

theorem isBoardFull_iff (b : Board) :
    isBoardFull b = true ↔ ∀ c : Fin COLS, b ⟨0, by decide⟩ c ≠ 0 := by
  unfold isBoardFull
  simp [List.all_eq_true]

/-- C9: `isBoardFull(board)` is true iff every cell of the top row is
non-empty, so one empty top-row cell makes it false; and on a board
satisfying gravity it is true iff no cell of the board is empty. -/
theorem isBoardFull_spec (b : Board) :
    (isBoardFull b = true ↔ ∀ c : Fin COLS, b ⟨0, by decide⟩ c ≠ 0) ∧
      (∀ c : Fin COLS, b ⟨0, by decide⟩ c = 0 → isBoardFull b = false) ∧
      (Gravity b →
        (isBoardFull b = true ↔ ∀ (r : Fin ROWS) (c : Fin COLS), b r c ≠ 0)) := by
  refine ⟨isBoardFull_iff b, ?_, ?_⟩
  · intro c hc
    rw [← Bool.not_eq_true, isBoardFull_iff]
    exact fun h => h c hc
  · intro hg
    rw [isBoardFull_iff]
    constructor
    · intro h r c
      by_cases hr : r = ⟨0, by decide⟩
      · rw [hr]
        exact h c
      · refine hg c ⟨0, by decide⟩ r ?_ (h c)
        apply Fin.lt_def.mpr
        have : r.val ≠ 0 := fun h0 => hr (Fin.ext h0)
        show 0 < r.val
        omega
    · exact fun h c => h _ c

/-- Witness for C9: the empty board satisfies gravity and is not full. -/
theorem isBoardFull_spec_witness :
    Gravity createBoard ∧
      (isBoardFull createBoard = true ↔
        ∀ (r : Fin ROWS) (c : Fin COLS), createBoard r c ≠ 0) :=
  ⟨gravity_createBoard, (isBoardFull_spec createBoard).2.2 gravity_createBoard⟩


/-! ## The win scan -/

theorem marked_iff (b : Board) (p r c : Int) :
    marked b p r c = true ↔ cellAt b r c = some p := by
  unfold marked
  constructor
  · intro h
    simp only [Bool.and_eq_true, beq_iff_eq] at h
    exact h.2
  · intro h
    have hr := cellAt_some_range h
    have h3 : c < 7 := hr.2.2.2
    have h2 : r < 6 := hr.2.1
    simp [h, hr.1, hr.2.2.1, h2, h3]

theorem countRun_three (b : Board) (p row col dr dc : Int) :
    countRun b p row col dr dc 3 1 =
      if cellAt b (row + dr * 1) (col + dc * 1) = some p then
        if cellAt b (row + dr * 2) (col + dc * 2) = some p then
          if cellAt b (row + dr * 3) (col + dc * 3) = some p then 3 else 2
        else 1
      else 0 := by
  have e2 : (1 : Int) + 1 = 2 := rfl
  have e3 : (2 : Int) + 1 = 3 := rfl
  simp only [countRun, e2, e3, marked_iff]
  split_ifs <;> rfl


theorem window_core (M : Int → Prop) [DecidablePred M] (h0 : M 0) :
    (1 + (if M 1 then if M 2 then if M 3 then 3 else 2 else 1 else 0)
        + (if M (-1) then if M (-2) then if M (-3) then 3 else 2 else 1 else 0) ≥ 4) ↔
      ∃ k : Int, 0 ≤ k ∧ k ≤ 3 ∧ ∀ j : Int, 0 ≤ j → j ≤ 3 → M (j - k) := by
  constructor
  · intro h
    by_cases g1 : M (-1)
    · by_cases g2 : M (-2)
      · by_cases g3 : M (-3)
        · refine ⟨3, by decide, by decide, ?_⟩
          intro j hj0 hj3
          interval_cases j <;> simpa
        · by_cases h1 : M 1
          · refine ⟨2, by decide, by decide, ?_⟩
            intro j hj0 hj3
            interval_cases j <;> simpa
          · simp [g1, g2, g3, h1] at h
      · by_cases h1 : M 1
        · by_cases h2 : M 2
          · refine ⟨1, by decide, by decide, ?_⟩
            intro j hj0 hj3
            interval_cases j <;> simpa
          · simp [g1, g2, h1, h2] at h
        · simp [g1, g2, h1] at h
    · by_cases h1 : M 1
      · by_cases h2 : M 2
        · by_cases h3 : M 3
          · refine ⟨0, by decide, by decide, ?_⟩
            intro j hj0 hj3
            interval_cases j <;> simpa
          · simp [g1, h1, h2, h3] at h
        · simp [g1, h1, h2] at h
      · simp [g1, h1] at h
  · rintro ⟨k, hk0, hk3, hall⟩
    have a0 := hall 0 (by decide) (by decide)
    have a1 := hall 1 (by decide) (by decide)
    have a2 := hall 2 (by decide) (by decide)
    have a3 := hall 3 (by decide) (by decide)
    interval_cases k <;> simp at a0 a1 a2 a3 <;> simp only [a0, a1, a2, a3, if_true] <;>
      split_ifs <;> decide


theorem countAxis_ge_iff (b : Board) (p row col dr dc : Int)
    (hc : cellAt b row col = some p) :
    countAxis b p row col dr dc ≥ 4 ↔
      ∃ k : Int, 0 ≤ k ∧ k ≤ 3 ∧ ∀ j : Int, 0 ≤ j → j ≤ 3 →
        cellAt b (row + dr * (j - k)) (col + dc * (j - k)) = some p := by
  have key := window_core (fun i => cellAt b (row + dr * i) (col + dc * i) = some p)
    (by simpa using hc)
  have hneg : ∀ i : Int, cellAt b (row + -dr * i) (col + -dc * i)
      = cellAt b (row + dr * (-i)) (col + dc * (-i)) := by
    intro i
    rw [neg_mul, neg_mul, mul_neg, mul_neg]
  unfold countAxis
  rw [show WIN_CONDITION - 1 = 3 from rfl, countRun_three, countRun_three]
  simp only [hneg]
  exact key

/-- C4: for a placement `(row, col)` whose cell holds `player`,
`checkWin(board, player, placement)` is true iff along one of the four
directions there are 4 consecutive in-bounds cells (offsets `-k .. 3-k` from the
placement, for some `k` in `0..3`, so that the placement is one of them) that all
hold `player`; hence with no such window, as when the longest run through the
placement is 3, it is false. It holds for every player value, 1 and 2 among
them. -/
theorem checkWin_iff_four_in_line (board : Board) (player row col : Int)
    (hcell : cellAt board row col = some player) :
    (checkWin board player (some ⟨row, col⟩) = true ↔
        ∃ d ∈ directions, ∃ k : Int, 0 ≤ k ∧ k ≤ 3 ∧ ∀ j : Int, 0 ≤ j → j ≤ 3 →
          cellAt board (row + d.1 * (j - k)) (col + d.2 * (j - k)) = some player) ∧
      ((¬ ∃ d ∈ directions, ∃ k : Int, 0 ≤ k ∧ k ≤ 3 ∧ ∀ j : Int, 0 ≤ j → j ≤ 3 →
          cellAt board (row + d.1 * (j - k)) (col + d.2 * (j - k)) = some player) →
        checkWin board player (some ⟨row, col⟩) = false) := by
  have key : checkWin board player (some ⟨row, col⟩) = true ↔
      ∃ d ∈ directions, ∃ k : Int, 0 ≤ k ∧ k ≤ 3 ∧ ∀ j : Int, 0 ≤ j → j ≤ 3 →
        cellAt board (row + d.1 * (j - k)) (col + d.2 * (j - k)) = some player := by
    unfold checkWin
    rw [List.any_eq_true]
    constructor
    · rintro ⟨d, hd, h⟩
      exact ⟨d, hd, (countAxis_ge_iff board player row col d.1 d.2 hcell).mp
        (of_decide_eq_true h)⟩
    · rintro ⟨d, hd, h⟩
      exact ⟨d, hd, decide_eq_true
        ((countAxis_ge_iff board player row col d.1 d.2 hcell).mpr h)⟩
  refine ⟨key, fun hn => ?_⟩
  rw [← Bool.not_eq_true, key]
  exact hn

/-- Witness for C4: four marks of player 1 in the bottom row, anchored at
its first cell. -/
theorem checkWin_iff_four_in_line_witness :
    cellAt (ofRows [[], [], [], [], [], [1, 1, 1, 1]]) 5 0 = some 1 ∧
      checkWin (ofRows [[], [], [], [], [], [1, 1, 1, 1]]) 1 (some ⟨5, 0⟩) = true ∧
      ∃ d ∈ directions, ∃ k : Int, 0 ≤ k ∧ k ≤ 3 ∧ ∀ j : Int, 0 ≤ j → j ≤ 3 →
        cellAt (ofRows [[], [], [], [], [], [1, 1, 1, 1]]) (5 + d.1 * (j - k))
          (0 + d.2 * (j - k)) = some 1 :=
  ⟨by decide, by decide,
    (checkWin_iff_four_in_line (ofRows [[], [], [], [], [], [1, 1, 1, 1]]) 1 5 0
      (by decide)).1.mp (by decide)⟩


/-! ## The registry -/

theorem regGet_regSet_self (k : String) (g : Game) (reg : List (String × Game)) :
    regGet k (regSet k g reg) = some g := by
  induction reg with
  | nil => simp [regSet, regGet]
  | cons x rest ih =>
    obtain ⟨k', g'⟩ := x
    by_cases h : k' = k
    · simp [regSet, regGet, h]
    · simp [regSet, regGet, h, ih]

theorem regGet_regSet_other (k k' : String) (g : Game) (reg : List (String × Game))
    (h : k' ≠ k) : regGet k' (regSet k g reg) = regGet k' reg := by
  induction reg with
  | nil => simp [regSet, regGet, h.symm]
  | cons x rest ih =>
    obtain ⟨k0, g0⟩ := x
    by_cases h0 : k0 = k
    · subst h0
      simp [regSet, regGet, h.symm]
    · by_cases h1 : k0 = k'
      · subst h1
        simp [regSet, regGet, h0]
      · simp [regSet, regGet, h0, h1, ih]

theorem regGet_mem {k : String} {g : Game} {reg : List (String × Game)}
    (h : regGet k reg = some g) : (k, g) ∈ reg := by
  induction reg with
  | nil => cases h
  | cons x rest ih =>
    obtain ⟨k0, g0⟩ := x
    by_cases h0 : k0 = k
    · subst h0
      simp [regGet] at h
      simp [h]
    · simp [regGet, h0] at h
      exact List.mem_cons_of_mem _ (ih h)

theorem mem_regSet {k : String} {g : Game} {reg : List (String × Game)}
    {x : String × Game} (h : x ∈ regSet k g reg) : x ∈ reg ∨ x.2 = g := by
  induction reg with
  | nil =>
    simp [regSet] at h
    exact Or.inr (by rw [h])
  | cons y rest ih =>
    obtain ⟨k0, g0⟩ := y
    by_cases h0 : k0 = k
    · simp only [regSet, h0, if_true, List.mem_cons] at h
      rcases h with h | h
      · exact Or.inr (by rw [h])
      · exact Or.inl (List.mem_cons_of_mem _ h)
    · simp only [regSet, h0, if_false, List.mem_cons] at h
      rcases h with h | h
      · exact Or.inl (by rw [h]; exact List.mem_cons_self _ _)
      · rcases ih h with h' | h'
        · exact Or.inl (List.mem_cons_of_mem _ h')
        · exact Or.inr h'

theorem gameOf_some {s : State} {id gid : String} {g : Game}
    (h : gameOf s id = some (gid, g)) :
    s.gameIdOf id = some gid ∧ regGet gid s.activeGames = some g := by
  unfold gameOf at h
  split at h
  · cases h
  · rename_i gameId hid
    split at h
    · cases h
    · rename_i game hg
      simp only [Option.some.injEq, Prod.mk.injEq] at h
      obtain ⟨h1, h2⟩ := h
      subst h1
      subst h2
      exact ⟨hid, hg⟩

theorem gameOf_of {s : State} {id gid : String} {g : Game}
    (h1 : s.gameIdOf id = some gid) (h2 : regGet gid s.activeGames = some g) :
    gameOf s id = some (gid, g) := by
  simp [gameOf, h1, h2]


/-! ## The handlers -/

theorem applyMove_win (s : State) (gid : String) (g : Game) (col player : Int)
    (hw : checkWin (makeMove g.board col player).1 player (makeMove g.board col player).2
      = true) :
    applyMove s gid g col player
      = ({ s with activeGames := regSet gid ({ g with
              board := (makeMove g.board col player).1,
              lastMove := (makeMove g.board col player).2 }) s.activeGames },
         [(g.players.p1, Msg.game_over (makeMove g.board col player).1 (some player)),
          (g.players.p2, Msg.game_over (makeMove g.board col player).1 (some player))]) := by
  simp only [applyMove, hw, if_true]

theorem applyMove_draw (s : State) (gid : String) (g : Game) (col player : Int)
    (hw : checkWin (makeMove g.board col player).1 player (makeMove g.board col player).2
      = false)
    (hf : isBoardFull (makeMove g.board col player).1 = true) :
    applyMove s gid g col player
      = ({ s with activeGames := regSet gid ({ g with
              board := (makeMove g.board col player).1,
              lastMove := (makeMove g.board col player).2 }) s.activeGames },
         [(g.players.p1, Msg.game_over (makeMove g.board col player).1 none),
          (g.players.p2, Msg.game_over (makeMove g.board col player).1 none)]) := by
  simp only [applyMove, hw, hf, if_true, Bool.false_eq_true, if_false]

theorem applyMove_continue (s : State) (gid : String) (g : Game) (col player : Int)
    (hw : checkWin (makeMove g.board col player).1 player (makeMove g.board col player).2
      = false)
    (hf : isBoardFull (makeMove g.board col player).1 = false) :
    applyMove s gid g col player
      = ({ s with activeGames := regSet gid ({ g with
              board := (makeMove g.board col player).1,
              lastMove := (makeMove g.board col player).2,
              turn := if player = 1 then 2 else 1 }) s.activeGames },
         [(g.players.p1, Msg.move_made (makeMove g.board col player).1
            (if player = 1 then 2 else 1)),
          (g.players.p2, Msg.move_made (makeMove g.board col player).1
            (if player = 1 then 2 else 1))]) := by
  simp only [applyMove, hw, hf, Bool.false_eq_true, if_false]

theorem applyMove_state (s : State) (gid : String) (g : Game) (col player : Int) :
    ∃ g' : Game,
      (applyMove s gid g col player).1
        = { s with activeGames := regSet gid g' s.activeGames } ∧
      g'.board = (makeMove g.board col player).1 ∧
      g'.lastMove = (makeMove g.board col player).2 ∧
      g'.players = g.players ∧
      (g'.turn = g.turn ∨ g'.turn = if player = 1 then 2 else 1) := by
  cases hw : checkWin (makeMove g.board col player).1 player (makeMove g.board col player).2
  · cases hf : isBoardFull (makeMove g.board col player).1
    · rw [applyMove_continue s gid g col player hw hf]
      exact ⟨_, rfl, rfl, rfl, rfl, Or.inr rfl⟩
    · rw [applyMove_draw s gid g col player hw hf]
      exact ⟨_, rfl, rfl, rfl, rfl, Or.inl rfl⟩
  · rw [applyMove_win s gid g col player hw]
    exact ⟨_, rfl, rfl, rfl, rfl, Or.inl rfl⟩

theorem onMakeMove_cases (s : State) (id : String) (col player : Int) :
    (∃ reason, onMakeMove s id col player = (s, [(id, Msg.invalid_move reason)]) ∧
        reason ∈ [msgNotInGame, msgWrongTurn, msgWrongPlayer, msgInvalidColumn]) ∨
      ∃ gid g, gameOf s id = some (gid, g) ∧ g.turn = player ∧
        ¬ ((player = 1 ∧ id ≠ g.players.p1) ∨ (player = 2 ∧ id ≠ g.players.p2)) ∧
        isValidMove g.board col = true ∧
        onMakeMove s id col player = applyMove s gid g col player := by
  unfold onMakeMove
  cases hgo : gameOf s id with
  | none => exact Or.inl ⟨msgNotInGame, rfl, by simp⟩
  | some x =>
    obtain ⟨gid, g⟩ := x
    dsimp only
    by_cases h1 : g.turn ≠ player
    · exact Or.inl ⟨msgWrongTurn, by rw [if_pos h1], by simp⟩
    · by_cases h2 : (player = 1 ∧ id ≠ g.players.p1) ∨ (player = 2 ∧ id ≠ g.players.p2)
      · exact Or.inl ⟨msgWrongPlayer, by rw [if_neg h1, if_pos h2], by simp⟩
      · by_cases h3 : isValidMove g.board col = true
        · refine Or.inr ⟨gid, g, rfl, not_not.mp h1, h2, h3, ?_⟩
          rw [if_neg h1, if_neg h2, h3]
          rfl
        · refine Or.inl ⟨msgInvalidColumn, ?_, by simp⟩
          have h3' : isValidMove g.board col = false := by simpa using h3
          rw [if_neg h1, if_neg h2, h3']
          rfl

theorem rejected_applyMove (s : State) (gid : String) (g : Game) (col player : Int) :
    rejected (applyMove s gid g col player).2 = false := by
  cases hw : checkWin (makeMove g.board col player).1 player (makeMove g.board col player).2
  · cases hf : isBoardFull (makeMove g.board col player).1
    · rw [applyMove_continue s gid g col player hw hf]
      rfl
    · rw [applyMove_draw s gid g col player hw hf]
      rfl
  · rw [applyMove_win s gid g col player hw]
    rfl


/-! ## The turn invariant -/

theorem turnOk_regSet {s : State} (h : TurnOk s) (gid : String) (g : Game)
    (hg : g.turn = 1 ∨ g.turn = 2) (w : List String) (f : String → Option String) :
    TurnOk ⟨w, regSet gid g s.activeGames, f⟩ := by
  intro x hx
  rcases mem_regSet hx with h1 | h1
  · exact h x h1
  · rw [h1]
    exact hg

theorem turnOk_onConnection {s : State} (h : TurnOk s) (id : String) :
    TurnOk (onConnection s id).1 := by
  unfold onConnection
  split
  · exact turnOk_regSet h _ _ (Or.inl rfl) _ _
  · exact h

theorem turnOk_onMakeMove {s : State} (h : TurnOk s) (id : String) (col player : Int) :
    TurnOk (onMakeMove s id col player).1 := by
  rcases onMakeMove_cases s id col player with ⟨r, e, _⟩ | ⟨gid, g, hg, _, _, _, e⟩
  · rw [e]
    exact h
  · rw [e]
    obtain ⟨g', e', _, _, _, ht⟩ := applyMove_state s gid g col player
    rw [e']
    have hgt := h _ (regGet_mem (gameOf_some hg).2)
    refine turnOk_regSet h gid g' ?_ _ _
    rcases ht with ht | ht
    · rw [ht]
      exact hgt
    · rw [ht]
      by_cases hp : player = 1
      · exact Or.inr (by simp [hp])
      · exact Or.inl (by simp [hp])

theorem turnOk_onDisconnect {s : State} (h : TurnOk s) (id : String) :
    TurnOk (onDisconnect s id).1 := by
  unfold onDisconnect
  dsimp only
  split
  · exact h
  · split
    · exact h
    · split
      · exact h
      · intro x hx
        exact h x (List.mem_of_mem_filter hx)

theorem turnOk_step {s : State} (h : TurnOk s) (e : Event) : TurnOk (step s e).1 := by
  cases e with
  | connect id => exact turnOk_onConnection h id
  | move id col player => exact turnOk_onMakeMove h id col player
  | disconnect id => exact turnOk_onDisconnect h id

theorem turnOk_run (es : List Event) : ∀ s : State, TurnOk s → TurnOk (run s es) := by
  induction es with
  | nil => exact fun s h => h
  | cons e es ih => exact fun s h => ih _ (turnOk_step h e)

theorem turnOk_of_reachable {s : State} (h : Reachable s) : TurnOk s := by
  obtain ⟨es, rfl⟩ := h
  exact turnOk_run es State.init (fun x hx => by cases hx)

theorem turn_of_gameOf {s : State} (hs : Reachable s) {id gid : String} {g : Game}
    (hg : gameOf s id = some (gid, g)) : g.turn = 1 ∨ g.turn = 2 :=
  turnOk_of_reachable hs _ (regGet_mem (gameOf_some hg).2)


/-! ## The checks of the `make_move` handler -/

theorem onMakeMove_notInGame {s : State} {id : String} (col player : Int)
    (hg : gameOf s id = none) :
    onMakeMove s id col player = (s, [(id, Msg.invalid_move msgNotInGame)]) := by
  unfold onMakeMove
  rw [hg]

theorem onMakeMove_wrongTurn {s : State} {id gid : String} {g : Game} (col : Int)
    {player : Int} (hg : gameOf s id = some (gid, g)) (h1 : g.turn ≠ player) :
    onMakeMove s id col player = (s, [(id, Msg.invalid_move msgWrongTurn)]) := by
  unfold onMakeMove
  rw [hg]
  dsimp only
  rw [if_pos h1]

theorem onMakeMove_wrongPlayer {s : State} {id gid : String} {g : Game} (col : Int)
    {player : Int} (hg : gameOf s id = some (gid, g)) (h1 : g.turn = player)
    (h2 : (player = 1 ∧ id ≠ g.players.p1) ∨ (player = 2 ∧ id ≠ g.players.p2)) :
    onMakeMove s id col player = (s, [(id, Msg.invalid_move msgWrongPlayer)]) := by
  unfold onMakeMove
  rw [hg]
  dsimp only
  rw [if_neg (not_not.mpr h1), if_pos h2]

theorem onMakeMove_invalidColumn {s : State} {id gid : String} {g : Game} {col : Int}
    {player : Int} (hg : gameOf s id = some (gid, g)) (h1 : g.turn = player)
    (h2 : ¬ ((player = 1 ∧ id ≠ g.players.p1) ∨ (player = 2 ∧ id ≠ g.players.p2)))
    (h3 : isValidMove g.board col = false) :
    onMakeMove s id col player = (s, [(id, Msg.invalid_move msgInvalidColumn)]) := by
  unfold onMakeMove
  rw [hg]
  dsimp only
  rw [if_neg (not_not.mpr h1), if_neg h2, h3]
  rfl

theorem onMakeMove_applied {s : State} {id gid : String} {g : Game} {col : Int}
    {player : Int} (hg : gameOf s id = some (gid, g)) (h1 : g.turn = player)
    (h2 : ¬ ((player = 1 ∧ id ≠ g.players.p1) ∨ (player = 2 ∧ id ≠ g.players.p2)))
    (h3 : isValidMove g.board col = true) :
    onMakeMove s id col player = applyMove s gid g col player := by
  unfold onMakeMove
  rw [hg]
  dsimp only
  rw [if_neg (not_not.mpr h1), if_neg h2, h3]
  rfl

theorem players_check_iff (ps : Players) (id : String) {player : Int}
    (hp : player = 1 ∨ player = 2) :
    ((player = 1 ∧ id ≠ ps.p1) ∨ (player = 2 ∧ id ≠ ps.p2)) ↔ ps.get player ≠ some id := by
  rcases hp with hp | hp
  · subst hp
    simp [Players.get, eq_comm]
  · subst hp
    simp [Players.get, eq_comm]

theorem gameOf_applyMove {s : State} {id gid : String} (g : Game) (col player : Int)
    (hid : s.gameIdOf id = some gid) :
    ∃ g' : Game, gameOf (applyMove s gid g col player).1 id = some (gid, g') ∧
      g'.board = (makeMove g.board col player).1 ∧
      g'.lastMove = (makeMove g.board col player).2 ∧
      g'.players = g.players ∧
      (g'.turn = g.turn ∨ g'.turn = if player = 1 then 2 else 1) := by
  obtain ⟨g', e, hb, hl, hp, ht⟩ := applyMove_state s gid g col player
  refine ⟨g', ?_, hb, hl, hp, ht⟩
  rw [e]
  exact gameOf_of hid (regGet_regSet_self gid g' s.activeGames)

/-- C1: the `make_move` handler decides a submission by the first failing
check, in this order: not in a game (the socket has no game in the registry),
wrong turn (`player` differs from `game.turn`), wrong player (the socket is
not the one in `game.players[player]`), invalid column (`isValidMove` false);
otherwise the move is applied: nothing is rejected and the game holds the board
and placement of `makeMove`. A submission failing both the turn check and the
player check gets the wrong-turn answer. -/
theorem onMakeMove_first_failing_check (s : State) (hs : Reachable s) (id : String)
    (col player : Int) :
    (gameOf s id = none →
        onMakeMove s id col player = (s, [(id, Msg.invalid_move msgNotInGame)])) ∧
      ∀ gid g, gameOf s id = some (gid, g) →
        (player ≠ g.turn →
          onMakeMove s id col player = (s, [(id, Msg.invalid_move msgWrongTurn)])) ∧
        (player = g.turn → g.players.get player ≠ some id →
          onMakeMove s id col player = (s, [(id, Msg.invalid_move msgWrongPlayer)])) ∧
        (player = g.turn → g.players.get player = some id →
          isValidMove g.board col = false →
          onMakeMove s id col player = (s, [(id, Msg.invalid_move msgInvalidColumn)])) ∧
        (player = g.turn → g.players.get player = some id →
          isValidMove g.board col = true →
          onMakeMove s id col player = applyMove s gid g col player ∧
          rejected (onMakeMove s id col player).2 = false ∧
          ∃ g', gameOf (onMakeMove s id col player).1 id = some (gid, g') ∧
            g'.board = (makeMove g.board col player).1 ∧
            g'.lastMove = (makeMove g.board col player).2) := by
  refine ⟨onMakeMove_notInGame col player, ?_⟩
  intro gid g hg
  have hturn := turn_of_gameOf hs hg
  refine ⟨fun h => onMakeMove_wrongTurn col hg (Ne.symm h), ?_, ?_, ?_⟩
  · intro h1 h2
    have hp : player = 1 ∨ player = 2 := by rw [h1]; exact hturn
    exact onMakeMove_wrongPlayer col hg h1.symm ((players_check_iff g.players id hp).mpr h2)
  · intro h1 h2 h3
    have hp : player = 1 ∨ player = 2 := by rw [h1]; exact hturn
    refine onMakeMove_invalidColumn hg h1.symm ?_ h3
    exact fun h => (players_check_iff g.players id hp).mp h h2
  · intro h1 h2 h3
    have hp : player = 1 ∨ player = 2 := by rw [h1]; exact hturn
    have e := onMakeMove_applied hg h1.symm
      (fun h => (players_check_iff g.players id hp).mp h h2) h3
    refine ⟨e, ?_, ?_⟩
    · rw [e]
      exact rejected_applyMove s gid g col player
    · rw [e]
      obtain ⟨g', h1', h2', h3', _⟩ := gameOf_applyMove g col player (gameOf_some hg).1
      exact ⟨g', h1', h2', h3'⟩


/-- Witness for C1: in the game of `A` (player 1, to move) and `B`, the socket
`A` claiming player 2 fails the turn check and the player check, and is
answered with the wrong-turn text. -/
theorem onMakeMove_first_failing_check_witness :
    Reachable pairedAB ∧ gameOf pairedAB "A" = some ("B-A", newGameAB) ∧
      (2 : Int) ≠ newGameAB.turn ∧ newGameAB.players.get 2 ≠ some "A" ∧
      onMakeMove pairedAB "A" 3 2 = (pairedAB, [("A", Msg.invalid_move msgWrongTurn)]) :=
  ⟨⟨_, rfl⟩, rfl, by decide, by decide,
    ((onMakeMove_first_failing_check pairedAB ⟨_, rfl⟩ "A" 3 2).2 "B-A" newGameAB rfl).1
      (by decide)⟩

theorem rejected_single (s : State) (id reason : String) :
    rejected (s, [(id, Msg.invalid_move reason)]).2 = true := rfl

/-- C2: a submission is rejected exactly when one of the four checks fails, and
a rejected submission leaves the whole server state as it was (every game with
its board, turn, lastMove and players, the registry, the waiting queue) and
emits one notification only: an `invalid_move`, with one of the four texts, to
the submitting socket. -/
theorem rejected_changes_nothing (s : State) (id : String) (col player : Int) :
    (rejected (onMakeMove s id col player).2 = true ↔
        (gameOf s id = none ∨ ∃ gid g, gameOf s id = some (gid, g) ∧
          (g.turn ≠ player ∨
            ((player = 1 ∧ id ≠ g.players.p1) ∨ (player = 2 ∧ id ≠ g.players.p2)) ∨
            isValidMove g.board col = false))) ∧
      (rejected (onMakeMove s id col player).2 = true →
        (onMakeMove s id col player).1 = s ∧
        ∃ reason, reason ∈ [msgNotInGame, msgWrongTurn, msgWrongPlayer, msgInvalidColumn] ∧
          (onMakeMove s id col player).2 = [(id, Msg.invalid_move reason)]) := by
  constructor
  · constructor
    · intro h
      rcases onMakeMove_cases s id col player with ⟨r, e, _⟩ | ⟨gid, g, hg, h1, h2, h3, e⟩
      · cases hgo : gameOf s id with
        | none => exact Or.inl rfl
        | some x =>
          obtain ⟨gid, g⟩ := x
          refine Or.inr ⟨gid, g, rfl, ?_⟩
          by_contra hn
          simp only [not_or] at hn
          obtain ⟨h1, h2, h3⟩ := hn
          have e' := onMakeMove_applied hgo (not_not.mp h1) (by simpa only [not_or] using h2)
            (by simpa using h3)
          rw [e', rejected_applyMove] at h
          cases h
      · rw [e, rejected_applyMove] at h
        cases h
    · rintro (hg | ⟨gid, g, hg, h⟩)
      · rw [onMakeMove_notInGame col player hg]
        rfl
      · by_cases h1 : g.turn ≠ player
        · rw [onMakeMove_wrongTurn col hg h1]
          rfl
        · by_cases h2 : (player = 1 ∧ id ≠ g.players.p1) ∨ (player = 2 ∧ id ≠ g.players.p2)
          · rw [onMakeMove_wrongPlayer col hg (not_not.mp h1) h2]
            rfl
          · rcases h with h | h | h
            · exact absurd h h1
            · exact absurd h h2
            · rw [onMakeMove_invalidColumn hg (not_not.mp h1) h2 h]
              rfl
  · intro h
    rcases onMakeMove_cases s id col player with ⟨r, e, hr⟩ | ⟨gid, g, _, _, _, _, e⟩
    · rw [e]
      exact ⟨rfl, r, hr, rfl⟩
    · rw [e, rejected_applyMove] at h
      cases h

/-- Witness for C2: the socket `B` claiming player 2 while it is the turn of
player 1. -/
theorem rejected_changes_nothing_witness :
    rejected (onMakeMove pairedAB "B" 3 2).2 = true ∧
      (onMakeMove pairedAB "B" 3 2).1 = pairedAB ∧
      ∃ reason, reason ∈ [msgNotInGame, msgWrongTurn, msgWrongPlayer, msgInvalidColumn] ∧
        (onMakeMove pairedAB "B" 3 2).2 = [("B", Msg.invalid_move reason)] :=
  ⟨rfl, (rejected_changes_nothing pairedAB "B" 3 2).2 rfl⟩


theorem accepted_cases {s : State} {id : String} {col player : Int}
    (h : rejected (onMakeMove s id col player).2 = false) :
    ∃ gid g, gameOf s id = some (gid, g) ∧ g.turn = player ∧
      ¬ ((player = 1 ∧ id ≠ g.players.p1) ∨ (player = 2 ∧ id ≠ g.players.p2)) ∧
      isValidMove g.board col = true ∧
      onMakeMove s id col player = applyMove s gid g col player := by
  rcases onMakeMove_cases s id col player with ⟨r, e, _⟩ | h'
  · rw [e, rejected_single] at h
    cases h
  · exact h'

/-- C7: when `isValidMove(board, column)` is true, `makeMove` returns a
placement; `makeMove` returns `null` only when no cell of the column is empty,
and then the board is unchanged; hence after an accepted submission the
`lastMove` stored in the game is a placement, never `null`. -/
theorem makeMove_null_only_when_full (board : Board) (column player : Int) :
    (isValidMove board column = true →
        ∃ p, (makeMove board column player).2 = some p) ∧
      ((makeMove board column player).2 = none →
        (∀ r : Int, cellAt board r column ≠ some 0) ∧
          (makeMove board column player).1 = board) ∧
      (∀ (s : State) (id gid : String) (g : Game),
        gameOf s id = some (gid, g) → g.board = board →
        rejected (onMakeMove s id column player).2 = false →
        ∃ g' p, gameOf (onMakeMove s id column player).1 id = some (gid, g') ∧
          g'.lastMove = some p ∧ (makeMove board column player).2 = some p) := by
  refine ⟨(makeMove_some_or_unchanged board column player).1,
    (makeMove_some_or_unchanged board column player).2, ?_⟩
  intro s id gid g hg hb hacc
  obtain ⟨gid', g0, hg', _, _, hv, e⟩ := accepted_cases hacc
  rw [hg] at hg'
  simp only [Option.some.injEq, Prod.mk.injEq] at hg'
  obtain ⟨h1, h2⟩ := hg'
  subst h1
  subst h2
  subst hb
  obtain ⟨p, hp⟩ := (makeMove_some_or_unchanged g.board column player).1 hv
  obtain ⟨g', e1, _, e2, _⟩ := gameOf_applyMove g column player (gameOf_some hg).1
  refine ⟨g', p, ?_, ?_, hp⟩
  · rw [e]
    exact e1
  · rw [e2, hp]

/-- Witness for C7: the first move of a new game, by `A` in column 3. -/
theorem makeMove_null_only_when_full_witness :
    isValidMove createBoard 3 = true ∧
      rejected (onMakeMove pairedAB "A" 3 1).2 = false ∧
      (∃ p, (makeMove createBoard 3 1).2 = some p) ∧
      ∃ g' p, gameOf (onMakeMove pairedAB "A" 3 1).1 "A" = some ("B-A", g') ∧
        g'.lastMove = some p ∧ (makeMove createBoard 3 1).2 = some p :=
  ⟨by decide, rfl, (makeMove_null_only_when_full createBoard 3 1).1 (by decide),
    (makeMove_null_only_when_full createBoard 3 1).2.2 pairedAB "A" "B-A" newGameAB
      rfl rfl rfl⟩

/-- C10: an accepted move by `player` that neither wins nor fills the board
sets the turn of the game to the other player (2 after player 1, 1 after
player 2) and emits `move_made`, carrying the board after the move and
`nextPlayer` equal to the new turn, to the two sockets of `game.players` (keys
1 and 2) and to nobody else. -/
theorem continued_move_flips_turn (s : State) (hs : Reachable s) (id gid : String)
    (g : Game) (col player : Int)
    (hg : gameOf s id = some (gid, g))
    (hacc : rejected (onMakeMove s id col player).2 = false)
    (hwin : checkWin (makeMove g.board col player).1 player
      (makeMove g.board col player).2 = false)
    (hfull : isBoardFull (makeMove g.board col player).1 = false) :
    ∃ g', gameOf (onMakeMove s id col player).1 id = some (gid, g') ∧
      g'.board = (makeMove g.board col player).1 ∧
      g'.players = g.players ∧
      ((player = 1 ∧ g'.turn = 2) ∨ (player = 2 ∧ g'.turn = 1)) ∧
      g.players.get 1 = some g.players.p1 ∧ g.players.get 2 = some g.players.p2 ∧
      (onMakeMove s id col player).2 =
        [(g.players.p1, Msg.move_made g'.board g'.turn),
         (g.players.p2, Msg.move_made g'.board g'.turn)] := by
  obtain ⟨gid', g0, hg', ht, _, _, e⟩ := accepted_cases hacc
  rw [hg] at hg'
  simp only [Option.some.injEq, Prod.mk.injEq] at hg'
  obtain ⟨h1, h2⟩ := hg'
  subst h1
  subst h2
  have hp : player = 1 ∨ player = 2 := by
    rw [← ht]
    exact turn_of_gameOf hs hg
  rw [e, applyMove_continue s gid g col player hwin hfull]
  refine ⟨_, gameOf_of (gameOf_some hg).1 (regGet_regSet_self gid _ s.activeGames),
    rfl, rfl, ?_, rfl, rfl, rfl⟩
  rcases hp with hp | hp
  · exact Or.inl ⟨hp, by simp [hp]⟩
  · exact Or.inr ⟨hp, by simp [hp]⟩

/-- Witness for C10: the first move of a new game, by `A` in column 3. -/
theorem continued_move_flips_turn_witness :
    Reachable pairedAB ∧ gameOf pairedAB "A" = some ("B-A", newGameAB) ∧
      ∃ g', gameOf (onMakeMove pairedAB "A" 3 1).1 "A" = some ("B-A", g') ∧
        g'.board = (makeMove newGameAB.board 3 1).1 ∧
        g'.players = newGameAB.players ∧
        (((1 : Int) = 1 ∧ g'.turn = 2) ∨ ((1 : Int) = 2 ∧ g'.turn = 1)) ∧
        newGameAB.players.get 1 = some newGameAB.players.p1 ∧
        newGameAB.players.get 2 = some newGameAB.players.p2 ∧
        (onMakeMove pairedAB "A" 3 1).2 =
          [(newGameAB.players.p1, Msg.move_made g'.board g'.turn),
           (newGameAB.players.p2, Msg.move_made g'.board g'.turn)] :=
  ⟨⟨_, rfl⟩, rfl,
    continued_move_flips_turn pairedAB ⟨_, rfl⟩ "A" "B-A" newGameAB 3 1 rfl rfl
      (by decide) (by decide)⟩


/-! ## Submissions after the end of a game -/

/-- C3, counterexample: in the game of `A` and `B`, the fourth mark of `A` in
column 3 produces `game_over`; the next submission of `A`, for column 0, is
not rejected and puts a mark of player 1 on the bottom cell of column 0. -/
theorem terminal_session_accepts_winner :
    ((onMakeMove threeEachAB "A" 3 1).2.any fun o => o.2.isGameOver) = true ∧
      rejected (onMakeMove (onMakeMove threeEachAB "A" 3 1).1 "A" 0 1).2 = false ∧
      (gameOf (onMakeMove threeEachAB "A" 3 1).1 "A").map (fun x => x.2.board 5 0)
        = some 0 ∧
      (gameOf (onMakeMove (onMakeMove threeEachAB "A" 3 1).1 "A" 0 1).1 "A").map
        (fun x => x.2.board 5 0) = some 1 :=
  ⟨rfl, rfl, rfl, rfl⟩

theorem isValidMove_false_of_full {b : Board} (hf : isBoardFull b = true) (c : Int) :
    isValidMove b c = false := by
  rw [← Bool.not_eq_true]
  intro hv
  have h := (isValidMove_eq_true_iff b c).mp hv
  have h0 : 0 ≤ c := by
    by_contra hc
    exact h (Or.inl (by omega))
  have h7 : c < 7 := by
    by_contra hc
    exact h (Or.inr (Or.inl (by omega)))
  have hlt : c.toNat < COLS := by
    show c.toNat < 7
    omega
  have hcell := cellAt_fin b ⟨0, by decide⟩ ⟨c.toNat, hlt⟩
  have e : ((c.toNat : Nat) : Int) = c := Int.toNat_of_nonneg h0
  simp only [e] at hcell
  exact h (Or.inr (Or.inr ⟨_, hcell, (isBoardFull_iff b).mp hf _⟩))

theorem onMakeMove_of_failed_check {s : State} {id gid : String} {g : Game}
    {col player : Int} (hg : gameOf s id = some (gid, g))
    (h : g.turn ≠ player ∨
      ((player = 1 ∧ id ≠ g.players.p1) ∨ (player = 2 ∧ id ≠ g.players.p2)) ∨
      isValidMove g.board col = false) :
    (onMakeMove s id col player).1 = s ∧ rejected (onMakeMove s id col player).2 = true := by
  rcases onMakeMove_cases s id col player with ⟨r, e, _⟩ | ⟨gid', g0, hg', h1, h2, h3, _⟩
  · rw [e]
    exact ⟨rfl, rfl⟩
  · rw [hg] at hg'
    simp only [Option.some.injEq, Prod.mk.injEq] at hg'
    obtain ⟨e1, e2⟩ := hg'
    subst e1
    subst e2
    rcases h with h | h | h
    · exact absurd h1 h
    · exact absurd h h2
    · rw [h3] at h
      cases h

theorem run_moveEvents_fixed (s : State) (subs : List (String × Int × Int))
    (h : ∀ m ∈ subs, (onMakeMove s m.1 m.2.1 m.2.2).1 = s) :
    run s (moveEvents subs) = s := by
  induction subs with
  | nil => rfl
  | cons m ms ih =>
    have h1 := h m (List.mem_cons_self _ _)
    show run (onMakeMove s m.1 m.2.1 m.2.2).1 (moveEvents ms) = s
    rw [h1]
    exact ih fun m' hm' => h m' (List.mem_cons_of_mem _ hm')


/-- C3, amended: when a submission `(id, col, player)` has produced
`game_over` with winner `w`, the winner is `player` or nobody (a draw), and the
later submissions on that session are all rejected and leave the whole state,
hence the board, unchanged, provided that after a win none of them is a
submission by the socket `id` claiming `player` for a column that is still
valid; after a draw there is no such proviso. -/
theorem terminal_session_rejects (s : State) (hs : Reachable s) (id : String)
    (col player : Int) (receiver : String) (b : Board) (w : Option Int)
    (hover : (receiver, Msg.game_over b w) ∈ (onMakeMove s id col player).2) :
    ∃ gid g', gameOf (onMakeMove s id col player).1 id = some (gid, g') ∧
      g'.board = b ∧ (w = none ∨ w = some player) ∧
      ∀ subs : List (String × Int × Int),
        (∀ m ∈ subs, (onMakeMove s id col player).1.gameIdOf m.1 = some gid) →
        (w = none ∨ ∀ m ∈ subs,
          m.1 ≠ id ∨ m.2.2 ≠ player ∨ isValidMove g'.board m.2.1 = false) →
        run (onMakeMove s id col player).1 (moveEvents subs)
            = (onMakeMove s id col player).1 ∧
          ∀ m ∈ subs,
            rejected (onMakeMove (onMakeMove s id col player).1 m.1 m.2.1 m.2.2).2 = true := by
  rcases onMakeMove_cases s id col player with ⟨r, e, _⟩ | ⟨gid, g, hg, ht, hpl, _, e⟩
  · rw [e] at hover
    simp at hover
  · have hp : player = 1 ∨ player = 2 := by
      rw [← ht]
      exact turn_of_gameOf hs hg
    have hid := (gameOf_some hg).1
    -- the game stored by a terminal outcome: the turn is not changed
    have key : ∃ g', (onMakeMove s id col player).1
          = { s with activeGames := regSet gid g' s.activeGames } ∧
        g'.board = b ∧ g'.turn = player ∧ g'.players = g.players ∧
        ((w = none ∧ isBoardFull g'.board = true) ∨ w = some player) := by
      rw [e] at hover ⊢
      cases hw : checkWin (makeMove g.board col player).1 player
        (makeMove g.board col player).2
      · cases hf : isBoardFull (makeMove g.board col player).1
        · rw [applyMove_continue s gid g col player hw hf] at hover
          simp at hover
        · rw [applyMove_draw s gid g col player hw hf] at hover ⊢
          simp only [List.mem_cons, Prod.mk.injEq, Msg.game_over.injEq, List.mem_nil_iff,
            or_false] at hover
          have hb : (makeMove g.board col player).1 = b ∧ (none : Option Int) = w := by
            rcases hover with h | h
            · exact ⟨h.2.1.symm, h.2.2.symm⟩
            · exact ⟨h.2.1.symm, h.2.2.symm⟩
          exact ⟨_, rfl, hb.1, ht, rfl, Or.inl ⟨hb.2.symm, hf⟩⟩
      · rw [applyMove_win s gid g col player hw] at hover ⊢
        simp only [List.mem_cons, Prod.mk.injEq, Msg.game_over.injEq, List.mem_nil_iff,
          or_false] at hover
        have hb : (makeMove g.board col player).1 = b ∧ some player = w := by
          rcases hover with h | h
          · exact ⟨h.2.1.symm, h.2.2.symm⟩
          · exact ⟨h.2.1.symm, h.2.2.symm⟩
        exact ⟨_, rfl, hb.1, ht, rfl, Or.inr hb.2.symm⟩
    obtain ⟨g', es, hb, hturn, hplayers, hw⟩ := key
    have hget : ∀ x : String, (onMakeMove s id col player).1.gameIdOf x = some gid →
        gameOf (onMakeMove s id col player).1 x = some (gid, g') := by
      intro x hx
      rw [es] at hx ⊢
      exact gameOf_of hx (regGet_regSet_self gid g' s.activeGames)
    refine ⟨gid, g', hget id (by rw [es]; exact hid), hb, ?_, ?_⟩
    · rcases hw with hw | hw
      · exact Or.inl hw.1
      · exact Or.inr hw
    · intro subs hon hcond
      have hstep : ∀ m ∈ subs,
          (onMakeMove (onMakeMove s id col player).1 m.1 m.2.1 m.2.2).1
              = (onMakeMove s id col player).1 ∧
            rejected (onMakeMove (onMakeMove s id col player).1 m.1 m.2.1 m.2.2).2
              = true := by
        intro m hm
        apply onMakeMove_of_failed_check (hget m.1 (hon m hm))
        have hfullcase : isBoardFull g'.board = true →
            g'.turn ≠ m.2.2 ∨
              ((m.2.2 = 1 ∧ m.1 ≠ g'.players.p1) ∨ (m.2.2 = 2 ∧ m.1 ≠ g'.players.p2)) ∨
              isValidMove g'.board m.2.1 = false :=
          fun hf => Or.inr (Or.inr (isValidMove_false_of_full hf _))
        have hwoncase : (m.1 ≠ id ∨ m.2.2 ≠ player ∨ isValidMove g'.board m.2.1 = false) →
            g'.turn ≠ m.2.2 ∨
              ((m.2.2 = 1 ∧ m.1 ≠ g'.players.p1) ∨ (m.2.2 = 2 ∧ m.1 ≠ g'.players.p2)) ∨
              isValidMove g'.board m.2.1 = false := by
          intro hc
          by_cases h1 : g'.turn = m.2.2
          · have h1' : m.2.2 = player := by rw [← h1, hturn]
            rcases hc with hc | hc | hc
            · refine Or.inr (Or.inl ?_)
              rw [hplayers, h1']
              rcases hp with hp | hp
              · refine Or.inl ⟨hp, fun h => hc ?_⟩
                by_contra hne
                exact hpl (Or.inl ⟨hp, fun h' => hne (h.trans h'.symm)⟩)
              · refine Or.inr ⟨hp, fun h => hc ?_⟩
                by_contra hne
                exact hpl (Or.inr ⟨hp, fun h' => hne (h.trans h'.symm)⟩)
            · exact absurd h1' hc
            · exact Or.inr (Or.inr hc)
          · exact Or.inl h1
        rcases hw with hw | hw
        · exact hfullcase hw.2
        · rcases hcond with hc | hc
          · rw [hc] at hw
            cases hw
          · exact hwoncase (hc m hm)
      exact ⟨run_moveEvents_fixed _ subs fun m hm => (hstep m hm).1,
        fun m hm => (hstep m hm).2⟩


theorem reachable_threeEachAB : Reachable threeEachAB :=
  ⟨[.connect "A", .connect "B", .move "A" 3 1, .move "B" 4 2, .move "A" 3 1,
    .move "B" 4 2, .move "A" 3 1, .move "B" 4 2], rfl⟩

/-- Witness for C3, amended: the fourth mark of `A` in column 3 wins the
game of `A` and `B`. -/
theorem terminal_session_rejects_witness :
    Reachable threeEachAB ∧
      ("A", Msg.game_over (boardOf (onMakeMove threeEachAB "A" 3 1).1 "A") (some 1))
        ∈ (onMakeMove threeEachAB "A" 3 1).2 ∧
      ∃ gid g', gameOf (onMakeMove threeEachAB "A" 3 1).1 "A" = some (gid, g') ∧
        g'.board = boardOf (onMakeMove threeEachAB "A" 3 1).1 "A" ∧
        ((some 1 : Option Int) = none ∨ (some 1 : Option Int) = some 1) ∧
        ∀ subs : List (String × Int × Int),
          (∀ m ∈ subs, (onMakeMove threeEachAB "A" 3 1).1.gameIdOf m.1 = some gid) →
          ((some 1 : Option Int) = none ∨ ∀ m ∈ subs,
            m.1 ≠ "A" ∨ m.2.2 ≠ 1 ∨ isValidMove g'.board m.2.1 = false) →
          run (onMakeMove threeEachAB "A" 3 1).1 (moveEvents subs)
              = (onMakeMove threeEachAB "A" 3 1).1 ∧
            ∀ m ∈ subs,
              rejected (onMakeMove (onMakeMove threeEachAB "A" 3 1).1
                m.1 m.2.1 m.2.2).2 = true :=
  ⟨reachable_threeEachAB, List.Mem.head _,
    terminal_session_rejects threeEachAB reachable_threeEachAB "A" 3 1 "A"
      (boardOf (onMakeMove threeEachAB "A" 3 1).1 "A") (some 1) (List.Mem.head _)⟩


/-! ## The anchor cell of the win scan -/

theorem countRun_setCell_anchor (b : Board) (p row col dr dc v : Int)
    (hd : dr = 1 ∨ (dr = 0 ∧ (dc = 1 ∨ dc = -1)) ∨ dr = -1) (n : Nat) :
    ∀ i : Int, 1 ≤ i →
      countRun (setCell b row col v) p row col dr dc n i = countRun b p row col dr dc n i := by
  induction n with
  | zero => intro i _; rfl
  | succ n ih =>
    intro i hi
    have hne : ¬ (row + dr * i = row ∧ col + dc * i = col) := by
      rintro ⟨h1, h2⟩
      rcases hd with h | ⟨h, h' | h'⟩ | h
      · subst h; omega
      · subst h'; omega
      · subst h'; omega
      · subst h; omega
    have hm : marked (setCell b row col v) p (row + dr * i) (col + dc * i)
        = marked b p (row + dr * i) (col + dc * i) := by
      unfold marked
      rw [cellAt_setCell, if_neg hne]
    simp only [countRun, hm, ih (i + 1) (by omega)]


theorem countAxis_setCell_anchor (b : Board) (p row col dr dc v : Int)
    (hd : (dr, dc) ∈ directions) :
    countAxis (setCell b row col v) p row col dr dc = countAxis b p row col dr dc := by
  have h1 : dr = 1 ∨ (dr = 0 ∧ (dc = 1 ∨ dc = -1)) ∨ dr = -1 := by
    simp only [directions, List.mem_cons, Prod.mk.injEq, List.mem_nil_iff, or_false] at hd
    rcases hd with h | h | h | h
    · exact Or.inr (Or.inl ⟨h.1, Or.inl h.2⟩)
    · exact Or.inl h.1
    · exact Or.inl h.1
    · exact Or.inl h.1
  have h2 : -dr = 1 ∨ (-dr = 0 ∧ (-dc = 1 ∨ -dc = -1)) ∨ -dr = -1 := by
    rcases h1 with h | ⟨h, h' | h'⟩ | h
    · exact Or.inr (Or.inr (by omega))
    · exact Or.inr (Or.inl ⟨by omega, Or.inr (by omega)⟩)
    · exact Or.inr (Or.inl ⟨by omega, Or.inl (by omega)⟩)
    · exact Or.inl (by omega)
  unfold countAxis
  rw [countRun_setCell_anchor b p row col dr dc v h1 _ 1 (le_refl 1),
    countRun_setCell_anchor b p row col (-dr) (-dc) v h2 _ 1 (le_refl 1)]

/-- C20: `checkWin` does not read the cell at `lastMove`: its result is the
same whatever value that cell holds, since `count` starts at 1 for it. So
there are a board, a player and an in-range placement whose cell does not hold
the player's mark for which `checkWin` is true: the empty cell `(5, 0)` next to
three marks of player 1 in the bottom row. -/
theorem checkWin_ignores_anchor :
    (∀ (b : Board) (p row col v : Int),
        checkWin (setCell b row col v) p (some ⟨row, col⟩) = checkWin b p (some ⟨row, col⟩)) ∧
      ∃ (b : Board) (p row col : Int),
        0 ≤ row ∧ row < 6 ∧ 0 ≤ col ∧ col < 7 ∧
        cellAt b row col ≠ some p ∧ checkWin b p (some ⟨row, col⟩) = true := by
  constructor
  · intro b p row col v
    unfold checkWin
    rw [Bool.eq_iff_iff, List.any_eq_true, List.any_eq_true]
    constructor
    · rintro ⟨d, hd, h⟩
      rw [countAxis_setCell_anchor b p row col d.1 d.2 v hd] at h
      exact ⟨d, hd, h⟩
    · rintro ⟨d, hd, h⟩
      rw [← countAxis_setCell_anchor b p row col d.1 d.2 v hd] at h
      exact ⟨d, hd, h⟩
  · exact ⟨ofRows [[], [], [], [], [], [0, 1, 1, 1]], 1, 5, 0,
      by decide, by decide, by decide, by decide, by decide, by decide⟩


/-! ## The game id -/

theorem gameIdFor_data (a b : String) :
    (gameIdFor a b).data = a.data ++ '-' :: b.data := by
  unfold gameIdFor
  rw [String.data_append, String.data_append]
  simp

theorem onConnection_gameId (s : State) (id opponent : String) (rest : List String)
    (h : s.waitingPlayers = opponent :: rest) :
    (onConnection s id).1.gameIdOf id = some (gameIdFor id opponent) ∧
      (onConnection s id).1.gameIdOf opponent = some (gameIdFor id opponent) := by
  unfold onConnection
  rw [h]
  dsimp only [gameIdFor]
  constructor
  · split <;> simp
  · simp

theorem append_cons_inj_left {α : Type} {x : α} :
    ∀ {l₁ l₂ r₁ r₂ : List α}, x ∉ l₁ → x ∉ l₂ → l₁ ++ x :: r₁ = l₂ ++ x :: r₂ →
      l₁ = l₂ ∧ r₁ = r₂
  | [], [], _, _, _, _, h => ⟨rfl, (List.cons.inj h).2⟩
  | [], y :: l₂, _, _, _, h2, h => by
    have := (List.cons.inj h).1
    exact absurd (this ▸ List.mem_cons_self _ _) h2
  | y :: l₁, [], _, _, h1, _, h => by
    have := (List.cons.inj h).1
    exact absurd (this ▸ List.mem_cons_self _ _) h1
  | y :: l₁, z :: l₂, _, _, h1, h2, h => by
    have hh := List.cons.inj h
    have ih := append_cons_inj_left (fun hx => h1 (List.mem_cons_of_mem _ hx))
      (fun hx => h2 (List.mem_cons_of_mem _ hx)) hh.2
    exact ⟨by rw [hh.1, ih.1], ih.2⟩

/-- Where the game id does separate pairs: when the arriving ids `a` and `c`
have the same length, or neither contains the character `-`, two different
pairs (arriving, waiting) get different game ids. -/
theorem gameIdFor_injective (a b c d : String)
    (hids : a.length = c.length ∨ ('-' ∉ a.data ∧ '-' ∉ c.data))
    (hne : (a, b) ≠ (c, d)) :
    gameIdFor a b ≠ gameIdFor c d := by
  intro h
  have hd : a.data ++ '-' :: b.data = c.data ++ '-' :: d.data := by
    rw [← gameIdFor_data, ← gameIdFor_data, h]
  have key : a.data = c.data ∧ b.data = d.data := by
    rcases hids with hl | ⟨ha, hc⟩
    · have := List.append_inj hd hl
      exact ⟨this.1, (List.cons.inj this.2).2⟩
    · exact append_cons_inj_left ha hc hd
  exact hne (Prod.ext (String.ext key.1) (String.ext key.2))

/-- C13: the game id is not unique. The arriving socket `a` paired with the
waiting `b-c`, and the arriving `a-b` paired with the waiting `c`, are two
different pairs with the same game id `a-b-c`; when the four sockets connect in
this order, the second pairing overwrites the game of the first in the
registry, which then holds the game of `c` and `a-b` only, and the `gameId` of
`b-c` and of `a` leads to that game. -/
theorem gameIdFor_collision :
    (("a", "b-c") : String × String) ≠ ("a-b", "c") ∧
      gameIdFor "a" "b-c" = "a-b-c" ∧ gameIdFor "a-b" "c" = "a-b-c" ∧
      pairedCollide.activeGames.map (fun kg => (kg.1, kg.2.players))
        = [("a-b-c", ⟨"b-c", "a"⟩)] ∧
      (run pairedCollide [.connect "c", .connect "a-b"]).activeGames.map
          (fun kg => (kg.1, kg.2.players))
        = [("a-b-c", ⟨"c", "a-b"⟩)] ∧
      (gameOf (run pairedCollide [.connect "c", .connect "a-b"]) "b-c").map
          (fun kg => (kg.1, kg.2.players))
        = some ("a-b-c", ⟨"c", "a-b"⟩) :=
  ⟨by decide, by decide, by decide, by rfl, by rfl, by rfl⟩

/-! ## Moves on a hosted game -/

theorem hosts_gameOf {s : State} {gid : String} {g : Game} {a b id : String}
    {player : Int} (h : Hosts s gid g a b) (hid : g.players.get player = some id) :
    gameOf s id = some (gid, g) ∧ (player = 1 ∨ player = 2) ∧
      ¬ ((player = 1 ∧ id ≠ g.players.p1) ∨ (player = 2 ∧ id ≠ g.players.p2)) := by
  obtain ⟨ha, hb, hr, hp⟩ := h
  have hpl : player = 1 ∨ player = 2 := by
    unfold Players.get at hid
    by_cases h1 : player = 1
    · exact Or.inl h1
    · by_cases h2 : player = 2
      · exact Or.inr h2
      · simp [h1, h2] at hid
  refine ⟨?_, hpl, fun hc => (players_check_iff g.players id hpl).mp hc hid⟩
  have : s.gameIdOf id = some gid := by
    rcases hpl with h1 | h1
    · subst h1
      have : g.players.p1 = id := by simpa [Players.get] using hid
      rw [← this, hp]
      exact ha
    · subst h1
      have : g.players.p2 = id := by simpa [Players.get] using hid
      rw [← this, hp]
      exact hb
  exact gameOf_of this hr

theorem hosts_regSet {s : State} {gid : String} {g : Game} {a b : String}
    (h : Hosts s gid g a b) (g' : Game) (hp : g'.players = g.players) :
    Hosts { s with activeGames := regSet gid g' s.activeGames } gid g' a b :=
  ⟨h.1, h.2.1, regGet_regSet_self gid g' s.activeGames, hp.trans h.2.2.2⟩

theorem hosts_continue {s : State} {gid a b : String} {B : Board} {t : Int}
    {mv : Option Placement} (h : Hosts s gid ⟨B, ⟨a, b⟩, t, mv⟩ a b)
    (id : String) (col player : Int)
    (hid : Players.get ⟨a, b⟩ player = some id) (ht : t = player)
    (hv : isValidMove B col = true)
    (hw : checkWin (makeMove B col player).1 player (makeMove B col player).2 = false)
    (hf : isBoardFull (makeMove B col player).1 = false) :
    ∃ s', onMakeMove s id col player
        = (s', [(a, Msg.move_made (makeMove B col player).1 (if player = 1 then 2 else 1)),
                (b, Msg.move_made (makeMove B col player).1 (if player = 1 then 2 else 1))]) ∧
      Hosts s' gid ⟨(makeMove B col player).1, ⟨a, b⟩,
        if player = 1 then 2 else 1, (makeMove B col player).2⟩ a b := by
  obtain ⟨hg, _, hc⟩ := hosts_gameOf h hid
  refine ⟨_, ?_, hosts_regSet h _ rfl⟩
  rw [onMakeMove_applied hg ht hc hv, applyMove_continue s gid _ col player hw hf]

theorem hosts_win {s : State} {gid a b : String} {B : Board} {t : Int}
    {mv : Option Placement} (h : Hosts s gid ⟨B, ⟨a, b⟩, t, mv⟩ a b)
    (id : String) (col player : Int)
    (hid : Players.get ⟨a, b⟩ player = some id) (ht : t = player)
    (hv : isValidMove B col = true)
    (hw : checkWin (makeMove B col player).1 player (makeMove B col player).2 = true) :
    ∃ s', onMakeMove s id col player
        = (s', [(a, Msg.game_over (makeMove B col player).1 (some player)),
                (b, Msg.game_over (makeMove B col player).1 (some player))]) ∧
      Hosts s' gid ⟨(makeMove B col player).1, ⟨a, b⟩, t, (makeMove B col player).2⟩ a b := by
  obtain ⟨hg, _, hc⟩ := hosts_gameOf h hid
  refine ⟨_, ?_, hosts_regSet h _ rfl⟩
  rw [onMakeMove_applied hg ht hc hv, applyMove_win s gid _ col player hw]

theorem hosts_draw {s : State} {gid a b : String} {B : Board} {t : Int}
    {mv : Option Placement} (h : Hosts s gid ⟨B, ⟨a, b⟩, t, mv⟩ a b)
    (id : String) (col player : Int)
    (hid : Players.get ⟨a, b⟩ player = some id) (ht : t = player)
    (hv : isValidMove B col = true)
    (hw : checkWin (makeMove B col player).1 player (makeMove B col player).2 = false)
    (hf : isBoardFull (makeMove B col player).1 = true) :
    ∃ s', onMakeMove s id col player
        = (s', [(a, Msg.game_over (makeMove B col player).1 none),
                (b, Msg.game_over (makeMove B col player).1 none)]) ∧
      Hosts s' gid ⟨(makeMove B col player).1, ⟨a, b⟩, t, (makeMove B col player).2⟩ a b := by
  obtain ⟨hg, _, hc⟩ := hosts_gameOf h hid
  refine ⟨_, ?_, hosts_regSet h _ rfl⟩
  rw [onMakeMove_applied hg ht hc hv, applyMove_draw s gid _ col player hw hf]

theorem hosts_paired (a b : String) :
    Hosts (run State.init [.connect a, .connect b]) (gameIdFor b a) (newGame a b) a b := by
  refine ⟨?_, ?_, ?_, rfl⟩
  · simp [run, step, onConnection, State.init, gameIdFor]
  · simp [run, step, onConnection, State.init, gameIdFor]
  · simp [run, step, onConnection, State.init, gameIdFor, regSet, regGet, newGame]

theorem trace_move_cons {s s' : State} {id : String} {col player : Int} {out : List Out}
    (h : onMakeMove s id col player = (s', out)) (es : List Event) :
    trace s (.move id col player :: es) = out :: trace s' es := by
  show (onMakeMove s id col player).2 :: trace (onMakeMove s id col player).1 es = _
  rw [h]


/-- C14: end-to-end vertical win. In the game created by pairing the waiting
socket `a` (player 1) with the arriving socket `b` (player 2), the submissions
`a:(col 3, player 1)` and `b:(col 4, player 2)`, alternately, are all accepted:
the first six each emit `move_made` to both sockets, and the seventh, the
fourth stacked mark of player 1 in column 3, makes `checkWin` true and emits
`game_over` with winner 1 to `a` and to `b`. -/
theorem vertical_win_end_to_end (a b : String) :
    trace (run State.init [.connect a, .connect b])
        [.move a 3 1, .move b 4 2, .move a 3 1, .move b 4 2, .move a 3 1, .move b 4 2,
          .move a 3 1]
      = [[(a, Msg.move_made (playMoves createBoard [(3, 1)]) 2),
          (b, Msg.move_made (playMoves createBoard [(3, 1)]) 2)],
         [(a, Msg.move_made (playMoves createBoard [(3, 1), (4, 2)]) 1),
          (b, Msg.move_made (playMoves createBoard [(3, 1), (4, 2)]) 1)],
         [(a, Msg.move_made (playMoves createBoard [(3, 1), (4, 2), (3, 1)]) 2),
          (b, Msg.move_made (playMoves createBoard [(3, 1), (4, 2), (3, 1)]) 2)],
         [(a, Msg.move_made (playMoves createBoard [(3, 1), (4, 2), (3, 1), (4, 2)]) 1),
          (b, Msg.move_made (playMoves createBoard [(3, 1), (4, 2), (3, 1), (4, 2)]) 1)],
         [(a, Msg.move_made
            (playMoves createBoard [(3, 1), (4, 2), (3, 1), (4, 2), (3, 1)]) 2),
          (b, Msg.move_made
            (playMoves createBoard [(3, 1), (4, 2), (3, 1), (4, 2), (3, 1)]) 2)],
         [(a, Msg.move_made
            (playMoves createBoard [(3, 1), (4, 2), (3, 1), (4, 2), (3, 1), (4, 2)]) 1),
          (b, Msg.move_made
            (playMoves createBoard [(3, 1), (4, 2), (3, 1), (4, 2), (3, 1), (4, 2)]) 1)],
         [(a, Msg.game_over
            (playMoves createBoard [(3, 1), (4, 2), (3, 1), (4, 2), (3, 1), (4, 2), (3, 1)])
            (some 1)),
          (b, Msg.game_over
            (playMoves createBoard [(3, 1), (4, 2), (3, 1), (4, 2), (3, 1), (4, 2), (3, 1)])
            (some 1))]] ∧
      checkWin
        (playMoves createBoard [(3, 1), (4, 2), (3, 1), (4, 2), (3, 1), (4, 2), (3, 1)]) 1
        (some ⟨2, 3⟩) = true ∧
      (makeMove (playMoves createBoard [(3, 1), (4, 2), (3, 1), (4, 2), (3, 1), (4, 2)])
        3 1).2 = some ⟨2, 3⟩ := by
  refine ⟨?_, by decide, by decide⟩
  have h0 := hosts_paired a b
  obtain ⟨s1, e1, h1⟩ := hosts_continue h0 a 3 1 rfl rfl
    (by decide) (by decide) (by decide)
  obtain ⟨s2, e2, h2⟩ := hosts_continue h1 b 4 2 rfl rfl
    (by decide) (by decide) (by decide)
  obtain ⟨s3, e3, h3⟩ := hosts_continue h2 a 3 1 rfl rfl
    (by decide) (by decide) (by decide)
  obtain ⟨s4, e4, h4⟩ := hosts_continue h3 b 4 2 rfl rfl
    (by decide) (by decide) (by decide)
  obtain ⟨s5, e5, h5⟩ := hosts_continue h4 a 3 1 rfl rfl
    (by decide) (by decide) (by decide)
  obtain ⟨s6, e6, h6⟩ := hosts_continue h5 b 4 2 rfl rfl
    (by decide) (by decide) (by decide)
  obtain ⟨s7, e7, _⟩ := hosts_win h6 a 3 1 rfl rfl
    (by decide) (by decide)
  rw [trace_move_cons e1, trace_move_cons e2, trace_move_cons e3, trace_move_cons e4,
    trace_move_cons e5, trace_move_cons e6, trace_move_cons e7]
  rfl


/-! ## The local scan and the full-board scan -/

theorem hasFourAnywhere_iff (b : Board) (p : Int) :
    hasFourAnywhere b p = true ↔
      ∃ r0 c0 : Nat, r0 < 6 ∧ c0 < 7 ∧ ∃ d ∈ directions, ∀ j : Nat, j < 4 →
        cellAt b ((r0 : Int) + d.1 * (j : Int)) ((c0 : Int) + d.2 * (j : Int)) = some p := by
  unfold hasFourAnywhere
  simp only [List.any_eq_true, List.all_eq_true, List.mem_range, beq_iff_eq]
  constructor
  · rintro ⟨r0, hr, c0, hc, d, hd, h⟩
    exact ⟨r0, c0, hr, hc, d, hd, h⟩
  · rintro ⟨r0, c0, hr, hc, d, hd, h⟩
    exact ⟨r0, hr, c0, hc, d, hd, h⟩

theorem checkWin_eq_true_iff (board : Board) (player row col : Int)
    (hcell : cellAt board row col = some player) :
    checkWin board player (some ⟨row, col⟩) = true ↔
      ∃ d ∈ directions, ∃ k : Int, 0 ≤ k ∧ k ≤ 3 ∧ ∀ j : Int, 0 ≤ j → j ≤ 3 →
        cellAt board (row + d.1 * (j - k)) (col + d.2 * (j - k)) = some player := by
  unfold checkWin
  rw [List.any_eq_true]
  constructor
  · rintro ⟨d, hd, h⟩
    exact ⟨d, hd, (countAxis_ge_iff board player row col d.1 d.2 hcell).mp
      (of_decide_eq_true h)⟩
  · rintro ⟨d, hd, h⟩
    exact ⟨d, hd, decide_eq_true
      ((countAxis_ge_iff board player row col d.1 d.2 hcell).mpr h)⟩

/-- For a column that is a number, the local win scan agrees with the
full-board scan: on a board with no run of 4 marks of `p` anywhere, when
`makeMove(board, column, p)` returns the placement `q`, `checkWin(board', p, q)`
on the resulting board is true iff `board'` contains a run of 4 marks of `p`
along some axis anywhere. -/
theorem local_scan_agrees_with_full_scan (board : Board) (column p : Int) (q : Placement)
    (hno : hasFourAnywhere board p = false)
    (hq : (makeMove board column p).2 = some q) :
    checkWin (makeMove board column p).1 p (some q) = true ↔
      hasFourAnywhere (makeMove board column p).1 p = true := by
  rcases makeMove_cases board column p with ⟨e, _⟩ | ⟨r, h0, _, e⟩
  · rw [e] at hq
    cases hq
  · rw [e] at hq ⊢
    have hq' : q = ⟨r, column⟩ := (Option.some.inj hq).symm
    subst hq'
    show checkWin (setCell board r column p) p (some ⟨r, column⟩) = true ↔
      hasFourAnywhere (setCell board r column p) p = true
    have hcell : cellAt (setCell board r column p) r column = some p := by
      rw [cellAt_setCell, if_pos ⟨rfl, rfl⟩, h0]
      rfl
    rw [checkWin_eq_true_iff _ _ _ _ hcell, hasFourAnywhere_iff]
    constructor
    · rintro ⟨d, hd, k, hk0, hk3, hall⟩
      have hstart := cellAt_some_range (hall 0 (le_refl 0) (by decide))
      have h6 : r + d.1 * (0 - k) < 6 := hstart.2.1
      have h7 : column + d.2 * (0 - k) < 7 := hstart.2.2.2
      refine ⟨(r + d.1 * (0 - k)).toNat, (column + d.2 * (0 - k)).toNat,
        by omega, by omega, d, hd, ?_⟩
      intro j hj
      have := hall j (by omega) (by omega)
      rw [Int.toNat_of_nonneg hstart.1, Int.toNat_of_nonneg hstart.2.2.1]
      have e1 : r + d.1 * (0 - k) + d.1 * (j : Int) = r + d.1 * ((j : Int) - k) := by ring
      have e2 : column + d.2 * (0 - k) + d.2 * (j : Int) = column + d.2 * ((j : Int) - k) := by
        ring
      rw [e1, e2]
      exact this
    · rintro ⟨r0, c0, hr, hc, d, hd, hall⟩
      by_cases hthrough : ∃ j0 : Nat, j0 < 4 ∧
          (r0 : Int) + d.1 * (j0 : Int) = r ∧ (c0 : Int) + d.2 * (j0 : Int) = column
      · obtain ⟨j0, hj0, hr0, hc0⟩ := hthrough
        refine ⟨d, hd, (j0 : Int), by omega, by omega, ?_⟩
        intro j hj1 hj2
        have := hall j.toNat (by omega)
        rw [Int.toNat_of_nonneg hj1] at this
        have e1 : r + d.1 * (j - (j0 : Int)) = (r0 : Int) + d.1 * j := by
          rw [← hr0]
          ring
        have e2 : column + d.2 * (j - (j0 : Int)) = (c0 : Int) + d.2 * j := by
          rw [← hc0]
          ring
        rw [e1, e2]
        exact this
      · exfalso
        have hold : hasFourAnywhere board p = true := by
          rw [hasFourAnywhere_iff]
          refine ⟨r0, c0, hr, hc, d, hd, ?_⟩
          intro j hj
          have := hall j hj
          rw [cellAt_setCell, if_neg (fun h => hthrough ⟨j, hj, h.1, h.2⟩)] at this
          exact this
        rw [hno] at hold
        cases hold

/-- C17: the local win scan misses a win when `col` is a string. On the board
with three marks each of player 1 in column 3 and of player 2 in column 4,
which has no run of 4, the string `3` passes `isValidMove`, `makeMove` puts the
mark of player 1 on `(2, 3)` and returns that placement with the string, and
the board then holds a vertical run of 4 of player 1; but `checkWin` is false,
because `col + dc * i` is the string `30` and the scan downwards stops at once.
With the number 3 the same move gives the same board and `checkWin` is true. -/
theorem string_column_misses_win :
    hasFourAnywhere
        (playMoves createBoard [(3, 1), (4, 2), (3, 1), (4, 2), (3, 1), (4, 2)]) 1 = false ∧
      isValidMoveStr
        (playMoves createBoard [(3, 1), (4, 2), (3, 1), (4, 2), (3, 1), (4, 2)]) "3" = true ∧
      (makeMoveStr (playMoves createBoard [(3, 1), (4, 2), (3, 1), (4, 2), (3, 1), (4, 2)])
        "3" 1).2 = some ⟨2, 3⟩ ∧
      (makeMoveStr (playMoves createBoard [(3, 1), (4, 2), (3, 1), (4, 2), (3, 1), (4, 2)])
        "3" 1).1
        = (makeMove (playMoves createBoard [(3, 1), (4, 2), (3, 1), (4, 2), (3, 1), (4, 2)])
            3 1).1 ∧
      hasFourAnywhere
        (makeMoveStr (playMoves createBoard [(3, 1), (4, 2), (3, 1), (4, 2), (3, 1), (4, 2)])
          "3" 1).1 1 = true ∧
      checkWinStr
        (makeMoveStr (playMoves createBoard [(3, 1), (4, 2), (3, 1), (4, 2), (3, 1), (4, 2)])
          "3" 1).1 1
        (makeMoveStr (playMoves createBoard [(3, 1), (4, 2), (3, 1), (4, 2), (3, 1), (4, 2)])
          "3" 1).2 = false ∧
      checkWin
        (makeMove (playMoves createBoard [(3, 1), (4, 2), (3, 1), (4, 2), (3, 1), (4, 2)])
          3 1).1 1
        (makeMove (playMoves createBoard [(3, 1), (4, 2), (3, 1), (4, 2), (3, 1), (4, 2)])
          3 1).2 = true :=
  ⟨by rfl, by rfl, by rfl, by rfl, by rfl, by rfl, by rfl⟩

/-! ## Matchmaking invariants -/

theorem queueInv_shrink {s s' : State} {fut : List String} (h : QueueInv s fut)
    (hid : s'.gameIdOf = s.gameIdOf)
    (hq : ∀ x ∈ s'.waitingPlayers, x ∈ s.waitingPlayers)
    (hlen : s'.waitingPlayers.length ≤ s.waitingPlayers.length)
    (hreg : ∀ kg ∈ s'.activeGames, ∃ kg0 ∈ s.activeGames, kg.2.players = kg0.2.players) :
    QueueInv s' fut := by
  obtain ⟨h1, h2, h3, h4⟩ := h
  have hub : ∀ x, Unbound s x → Unbound s' x := by
    intro x hx
    refine ⟨by rw [hid]; exact hx.1, ?_⟩
    intro kg hkg
    obtain ⟨kg0, hkg0, e⟩ := hreg kg hkg
    rw [e]
    exact hx.2 kg0 hkg0
  refine ⟨fun x hx => ⟨fun hin => (h1 x hx).1 (hq x hin), hub x (h1 x hx).2⟩,
    fun x hx => hub x (h2 x (hq x hx)), le_trans hlen h3, ?_⟩
  intro kg hkg
  obtain ⟨kg0, hkg0, e⟩ := hreg kg hkg
  rw [e]
  exact h4 kg0 hkg0

theorem queueInv_onConnection {s : State} {id : String} {fut : List String}
    (h : QueueInv s (id :: fut)) (hnd : id ∉ fut) :
    QueueInv (onConnection s id).1 fut := by
  obtain ⟨h1, h2, h3, h4⟩ := h
  have hidq := (h1 id (List.mem_cons_self _ _)).1
  have hidu := (h1 id (List.mem_cons_self _ _)).2
  unfold onConnection
  cases hw : s.waitingPlayers with
  | nil =>
    dsimp only
    refine ⟨?_, ?_, ?_, h4⟩
    · intro x hx
      refine ⟨?_, (h1 x (List.mem_cons_of_mem _ hx)).2⟩
      show x ∉ [] ++ [id]
      simp only [List.nil_append, List.mem_singleton]
      intro hxid
      exact hnd (hxid ▸ hx)
    · intro x hx
      have hx' : x ∈ [] ++ [id] := hx
      simp only [List.nil_append, List.mem_singleton] at hx'
      rw [hx']
      exact hidu
    · show ([] ++ [id]).length ≤ 1
      simp
  | cons opp rest =>
    dsimp only
    have hopp : opp ∈ s.waitingPlayers := by rw [hw]; exact List.mem_cons_self _ _
    have hrest : rest = [] := by
      rw [hw] at h3
      cases rest with
      | nil => rfl
      | cons y ys => simp at h3
    have hne : opp ≠ id := fun e => hidq (e ▸ hopp)
    refine ⟨?_, ?_, ?_, ?_⟩
    · intro x hx
      have hx1 := h1 x (List.mem_cons_of_mem _ hx)
      have hxid : x ≠ id := fun e => hnd (e ▸ hx)
      have hxopp : x ≠ opp := fun e => hx1.1 (e ▸ hopp)
      refine ⟨by rw [hrest]; exact List.not_mem_nil x, ?_, ?_⟩
      · show (if x = opp then _ else if x = id then _ else s.gameIdOf x) = none
        rw [if_neg hxopp, if_neg hxid]
        exact hx1.2.1
      · intro kg hkg
        rcases mem_regSet hkg with hk | hk
        · exact hx1.2.2 kg hk
        · rw [hk]
          exact ⟨hxopp, hxid⟩
    · intro x hx
      rw [hrest] at hx
      cases hx
    · rw [hrest]
      simp
    · intro kg hkg
      rcases mem_regSet hkg with hk | hk
      · exact h4 kg hk
      · rw [hk]
        exact hne

theorem onMakeMove_players (s : State) (id : String) (col player : Int) :
    (onMakeMove s id col player).1.gameIdOf = s.gameIdOf ∧
      (onMakeMove s id col player).1.waitingPlayers = s.waitingPlayers ∧
      (∀ gid, (regGet gid (onMakeMove s id col player).1.activeGames).map Game.players
        = (regGet gid s.activeGames).map Game.players) ∧
      ∀ kg ∈ (onMakeMove s id col player).1.activeGames,
        ∃ kg0 ∈ s.activeGames, kg.2.players = kg0.2.players := by
  rcases onMakeMove_cases s id col player with ⟨r, e, _⟩ | ⟨gid, g, hg, _, _, _, e⟩
  · rw [e]
    exact ⟨rfl, rfl, fun _ => rfl, fun kg hkg => ⟨kg, hkg, rfl⟩⟩
  · rw [e]
    obtain ⟨g', e', _, _, hp, _⟩ := applyMove_state s gid g col player
    rw [e']
    have hreg := (gameOf_some hg).2
    refine ⟨rfl, rfl, ?_, ?_⟩
    · intro gid'
      by_cases hk : gid' = gid
      · subst hk
        show (regGet gid' (regSet gid' g' s.activeGames)).map Game.players = _
        rw [regGet_regSet_self, hreg]
        simp [hp]
      · show (regGet gid' (regSet gid g' s.activeGames)).map Game.players = _
        rw [regGet_regSet_other gid gid' g' s.activeGames hk]
    · intro kg hkg
      rcases mem_regSet hkg with hk | hk
      · exact ⟨kg, hk, rfl⟩
      · exact ⟨(gid, g), regGet_mem hreg, by rw [hk, hp]⟩

theorem onDisconnect_shrink (s : State) (id : String) :
    (onDisconnect s id).1.gameIdOf = s.gameIdOf ∧
      (∀ x ∈ (onDisconnect s id).1.waitingPlayers, x ∈ s.waitingPlayers) ∧
      (onDisconnect s id).1.waitingPlayers.length ≤ s.waitingPlayers.length ∧
      ∀ kg ∈ (onDisconnect s id).1.activeGames, kg ∈ s.activeGames := by
  have hsub : ∀ x ∈ s.waitingPlayers.filter (fun x => x != id), x ∈ s.waitingPlayers :=
    fun x hx => List.mem_of_mem_filter hx
  have hlen := List.length_filter_le (fun x => x != id) s.waitingPlayers
  unfold onDisconnect
  dsimp only
  split
  · exact ⟨rfl, hsub, hlen, fun kg h => h⟩
  · split
    · exact ⟨rfl, hsub, hlen, fun kg h => h⟩
    · split
      · exact ⟨rfl, hsub, hlen, fun kg h => h⟩
      · exact ⟨rfl, hsub, hlen, fun kg h => List.mem_of_mem_filter h⟩

theorem queueInv_step {s : State} {e : Event} {es : List Event}
    (h : QueueInv s (connectIds (e :: es))) (hnd : (connectIds (e :: es)).Nodup) :
    QueueInv (step s e).1 (connectIds es) := by
  cases e with
  | connect id => exact queueInv_onConnection h (List.nodup_cons.mp hnd).1
  | move id col player =>
    obtain ⟨a, b, _, d⟩ := onMakeMove_players s id col player
    exact @queueInv_shrink s (onMakeMove s id col player).1 _ h a
      (fun x hx => b ▸ hx) (le_of_eq (congrArg List.length b)) d
  | disconnect id =>
    obtain ⟨a, b, c, d⟩ := onDisconnect_shrink s id
    exact @queueInv_shrink s (onDisconnect s id).1 _ h a b c
      (fun kg hkg => ⟨kg, d kg hkg, rfl⟩)

theorem queueInv_run (es : List Event) :
    ∀ s : State, QueueInv s (connectIds es) → (connectIds es).Nodup →
      QueueInv (run s es) [] := by
  induction es with
  | nil => exact fun s h _ => h
  | cons e es ih =>
    intro s h hnd
    refine ih _ (queueInv_step h hnd) ?_
    cases e with
    | connect id => exact (List.nodup_cons.mp hnd).2
    | move id col player => exact hnd
    | disconnect id => exact hnd

theorem queueInv_init (fut : List String) : QueueInv State.init fut :=
  ⟨fun _ _ => ⟨List.not_mem_nil _, rfl, fun _ h => absurd h (List.not_mem_nil _)⟩,
    fun _ h => absurd h (List.not_mem_nil _), Nat.zero_le _,
    fun _ h => absurd h (List.not_mem_nil _)⟩

theorem queue_length_step (s : State) (e : Event) (h : s.waitingPlayers.length ≤ 1) :
    (step s e).1.waitingPlayers.length ≤ 1 := by
  cases e with
  | connect id =>
    show (onConnection s id).1.waitingPlayers.length ≤ 1
    unfold onConnection
    cases hw : s.waitingPlayers with
    | nil => simp
    | cons opp rest =>
      rw [hw] at h
      simp only [List.length_cons] at h ⊢
      omega
  | move id col player =>
    show (onMakeMove s id col player).1.waitingPlayers.length ≤ 1
    rw [(onMakeMove_players s id col player).2.1]
    exact h
  | disconnect id => exact le_trans (onDisconnect_shrink s id).2.2.1 h

theorem queue_length_run (es : List Event) :
    ∀ s : State, s.waitingPlayers.length ≤ 1 → (run s es).waitingPlayers.length ≤ 1 := by
  induction es with
  | nil => exact fun s h => h
  | cons e es ih => exact fun s h => ih _ (queue_length_step s e h)


theorem onConnection_creates (s : State) (id opp : String) (rest : List String)
    (h : s.waitingPlayers = opp :: rest) :
    regGet (gameIdFor id opp) (onConnection s id).1.activeGames = some (newGame opp id) ∧
      (onConnection s id).1.waitingPlayers = rest ∧
      (onConnection s id).2 = [(opp, Msg.game_start 1 1 createBoard),
        (id, Msg.game_start 2 1 createBoard)] := by
  unfold onConnection
  rw [h]
  exact ⟨regGet_regSet_self _ _ _, rfl, rfl⟩

/-- C16: session binding invariant. When every socket id triggers at most one
`connect` event, every game in the registry binds the keys 1 and 2 of `players`
to two different socket ids; a game is created with the waiting socket as
player 1 and the arriving socket as player 2; and a `make_move` submission,
accepted or rejected, changes the `players` of no game. -/
theorem session_binding_invariant :
    (∀ es : List Event, (connectIds es).Nodup →
        ∀ kg ∈ (run State.init es).activeGames,
          kg.2.players.p1 ≠ kg.2.players.p2 ∧
          kg.2.players.get 1 = some kg.2.players.p1 ∧
          kg.2.players.get 2 = some kg.2.players.p2) ∧
      (∀ (s : State) (id opp : String) (rest : List String),
        s.waitingPlayers = opp :: rest →
        regGet (gameIdFor id opp) (onConnection s id).1.activeGames
          = some (newGame opp id)) ∧
      (∀ (s : State) (id : String) (col player : Int) (gid : String),
        (regGet gid (onMakeMove s id col player).1.activeGames).map Game.players
          = (regGet gid s.activeGames).map Game.players) := by
  refine ⟨?_, fun s id opp rest h => (onConnection_creates s id opp rest h).1,
    fun s id col player gid => (onMakeMove_players s id col player).2.2.1 gid⟩
  intro es hnd kg hkg
  exact ⟨(queueInv_run es State.init (queueInv_init _) hnd).2.2.2 kg hkg, rfl, rfl⟩

/-- Witness for C16: the game of `A` and `B`. -/
theorem session_binding_invariant_witness :
    (connectIds [.connect "A", .connect "B"]).Nodup ∧
      (("B-A", newGameAB) : String × Game) ∈ pairedAB.activeGames ∧
      newGameAB.players.p1 ≠ newGameAB.players.p2 ∧
      newGameAB.players.get 1 = some newGameAB.players.p1 ∧
      newGameAB.players.get 2 = some newGameAB.players.p2 :=
  ⟨by decide, List.Mem.head _,
    session_binding_invariant.1 [.connect "A", .connect "B"] (by decide)
      ("B-A", newGameAB) (List.Mem.head _)⟩

/-- C19: the waiting queue never holds more than one socket: after any
sequence of events from start-up, `waitingPlayers` has length at most 1; and
when every socket id triggers at most one `connect` event, a socket in the
queue is not bound to any game of the registry: its `gameId` is unset, it
resolves to no game, and it is neither player of any game. -/
theorem waiting_queue_at_most_one (es : List Event) :
    (run State.init es).waitingPlayers.length ≤ 1 ∧
      ((connectIds es).Nodup →
        ∀ x ∈ (run State.init es).waitingPlayers,
          Unbound (run State.init es) x ∧ gameOf (run State.init es) x = none) := by
  refine ⟨queue_length_run es State.init (Nat.zero_le _), ?_⟩
  intro hnd x hx
  have hu := (queueInv_run es State.init (queueInv_init _) hnd).2.1 x hx
  refine ⟨hu, ?_⟩
  unfold gameOf
  rw [hu.1]

/-- Witness for C19: `C` waits after `A` and `B` were paired. -/
theorem waiting_queue_at_most_one_witness :
    (connectIds [.connect "A", .connect "B", .connect "C"]).Nodup ∧
      (run State.init [.connect "A", .connect "B", .connect "C"]).waitingPlayers = ["C"] ∧
      (run State.init [.connect "A", .connect "B", .connect "C"]).waitingPlayers.length ≤ 1 ∧
      Unbound (run State.init [.connect "A", .connect "B", .connect "C"]) "C" ∧
      gameOf (run State.init [.connect "A", .connect "B", .connect "C"]) "C" = none :=
  ⟨by decide, rfl,
    (waiting_queue_at_most_one [.connect "A", .connect "B", .connect "C"]).1,
    (waiting_queue_at_most_one [.connect "A", .connect "B", .connect "C"]).2 (by decide)
      "C" (List.Mem.head _)⟩


/-! ## Disconnection -/

theorem regGet_eq_none_iff (k : String) (reg : List (String × Game)) :
    regGet k reg = none ↔ ∀ kg ∈ reg, kg.1 ≠ k := by
  induction reg with
  | nil => simp [regGet]
  | cons x rest ih =>
    obtain ⟨k0, g0⟩ := x
    by_cases h : k0 = k
    · simp [regGet, h]
    · simp [regGet, h, ih]

theorem regGet_regDel_self (k : String) (reg : List (String × Game)) :
    regGet k (regDel k reg) = none := by
  rw [regGet_eq_none_iff]
  intro kg hkg
  have := (List.mem_filter.mp hkg).2
  simpa using this

theorem regGet_none_of_subset {k : String} {reg reg' : List (String × Game)}
    (h : regGet k reg = none) (hsub : ∀ kg ∈ reg', kg ∈ reg) : regGet k reg' = none := by
  rw [regGet_eq_none_iff] at h ⊢
  exact fun kg hkg => h kg (hsub kg hkg)

theorem gameIdFor_ne_empty (a b : String) : gameIdFor a b ≠ "" := by
  intro h
  have := congrArg String.data h
  rw [gameIdFor_data] at this
  simp at this

theorem gameIdsOk_step {s : State} (h : GameIdsOk s) (e : Event) :
    GameIdsOk (step s e).1 := by
  cases e with
  | connect id =>
    show GameIdsOk (onConnection s id).1
    unfold onConnection
    cases hw : s.waitingPlayers with
    | nil => exact h
    | cons opp rest =>
      intro x gid hx
      have hx' : (if x = opp then some (gameIdFor id opp)
          else if x = id then some (gameIdFor id opp) else s.gameIdOf x) = some gid := hx
      by_cases h1 : x = opp
      · rw [if_pos h1] at hx'
        rw [← Option.some.inj hx']
        exact gameIdFor_ne_empty id opp
      · rw [if_neg h1] at hx'
        by_cases h2 : x = id
        · rw [if_pos h2] at hx'
          rw [← Option.some.inj hx']
          exact gameIdFor_ne_empty id opp
        · rw [if_neg h2] at hx'
          exact h x gid hx'
  | move id col player =>
    intro x gid hx
    have : (onMakeMove s id col player).1.gameIdOf x = some gid := hx
    rw [(onMakeMove_players s id col player).1] at this
    exact h x gid this
  | disconnect id =>
    intro x gid hx
    have : (onDisconnect s id).1.gameIdOf x = some gid := hx
    rw [(onDisconnect_shrink s id).1] at this
    exact h x gid this

theorem gameIdsOk_run (es : List Event) :
    ∀ s : State, GameIdsOk s → GameIdsOk (run s es) := by
  induction es with
  | nil => exact fun s h => h
  | cons e es ih => exact fun s h => ih _ (gameIdsOk_step h e)

theorem gameIdsOk_of_reachable {s : State} (h : Reachable s) : GameIdsOk s := by
  obtain ⟨es, rfl⟩ := h
  exact gameIdsOk_run es State.init (fun x gid hx => by cases hx)

theorem gone_step {s : State} {y gid : String} (e : Event) (he : e.isConnect = false)
    (h : s.gameIdOf y = some gid ∧ regGet gid s.activeGames = none) :
    (step s e).1.gameIdOf y = some gid ∧ regGet gid (step s e).1.activeGames = none := by
  cases e with
  | connect id => cases he
  | move id col player =>
    obtain ⟨a, _, c, _⟩ := onMakeMove_players s id col player
    refine ⟨by show (onMakeMove s id col player).1.gameIdOf y = _; rw [a]; exact h.1, ?_⟩
    have := c gid
    rw [h.2] at this
    cases hr : regGet gid (onMakeMove s id col player).1.activeGames with
    | none => exact hr
    | some g =>
      rw [hr] at this
      cases this
  | disconnect id =>
    obtain ⟨a, _, _, d⟩ := onDisconnect_shrink s id
    exact ⟨by show (onDisconnect s id).1.gameIdOf y = _; rw [a]; exact h.1,
      regGet_none_of_subset h.2 d⟩

theorem gone_run (es : List Event) :
    ∀ (s : State) (y gid : String), (∀ e ∈ es, e.isConnect = false) →
      s.gameIdOf y = some gid ∧ regGet gid s.activeGames = none →
      (run s es).gameIdOf y = some gid ∧ regGet gid (run s es).activeGames = none := by
  induction es with
  | nil => exact fun s y gid _ h => h
  | cons e es ih =>
    intro s y gid hes h
    exact ih _ y gid (fun e' he' => hes e' (List.mem_cons_of_mem _ he'))
      (gone_step e (hes e (List.mem_cons_self _ _)) h)

/-- Where disconnection does what is expected: for a game in the registry and
a participant `x` of it, with `y` the other participant (both bound to the
game, different, `y` not the empty string), the `disconnect` of `x` emits one
notification only, `opponent_disconnected` to `y`, and removes the game from
the registry; and as long as no socket connects, a `make_move` submission of
`y` made afterwards is rejected as not in a game. -/
theorem disconnect_notifies_opponent (s : State) (hs : Reachable s) (gid : String)
    (g : Game) (x y : String)
    (hx : gameOf s x = some (gid, g))
    (hpart : (x = g.players.p1 ∧ y = g.players.p2) ∨ (x = g.players.p2 ∧ y = g.players.p1))
    (hne : x ≠ y) (hy : y ≠ "") (hyb : s.gameIdOf y = some gid) :
    (onDisconnect s x).2 = [(y, Msg.opponent_disconnected)] ∧
      regGet gid (onDisconnect s x).1.activeGames = none ∧
      ∀ es : List Event, (∀ e ∈ es, e.isConnect = false) →
        ∀ col player : Int,
          onMakeMove (run (onDisconnect s x).1 es) y col player
            = (run (onDisconnect s x).1 es, [(y, Msg.invalid_move msgNotInGame)]) := by
  obtain ⟨hxid, hreg⟩ := gameOf_some hx
  have hgid : gid ≠ "" := gameIdsOk_of_reachable hs x gid hxid
  have hopp : (if x = g.players.p1 then g.players.p2 else g.players.p1) = y := by
    rcases hpart with ⟨h1, h2⟩ | ⟨h1, h2⟩
    · rw [if_pos h1, h2]
    · rw [if_neg (fun h => hne (h.trans h2.symm)), h2]
  have e : onDisconnect s x
      = ({ s with waitingPlayers := s.waitingPlayers.filter fun z => z != x,
                  activeGames := regDel gid s.activeGames },
         [(y, Msg.opponent_disconnected)]) := by
    unfold onDisconnect
    simp only [hxid, hreg, if_neg hgid, hopp, if_neg hy]
  rw [e]
  refine ⟨rfl, regGet_regDel_self gid s.activeGames, ?_⟩
  intro es hes col player
  have hgone := gone_run es _ y gid hes
    (⟨hyb, regGet_regDel_self gid s.activeGames⟩ :
      ({ s with waitingPlayers := s.waitingPlayers.filter fun z => z != x,
                activeGames := regDel gid s.activeGames } : State).gameIdOf y = some gid ∧ _)
  apply onMakeMove_notInGame
  unfold gameOf
  rw [hgone.1]
  dsimp only
  rw [hgone.2]

/-- C12: after a disconnection the remaining participant can be taken for a
member of another game. In the game of `b-c` and `a`, the `disconnect` of `a`
emits `opponent_disconnected` to `b-c` only and removes the game; when `c` and
`a-b` are then paired, their game gets the same key `a-b-c`, and a `make_move`
submission of `b-c` is answered with the wrong-player text (the wrong-turn text
when it claims player 2), not with the not-in-game text. -/
theorem disconnect_then_colliding_pair :
    gameOf pairedCollide "a" = some ("a-b-c", newGame "b-c" "a") ∧
      (onDisconnect pairedCollide "a").2 = [("b-c", Msg.opponent_disconnected)] ∧
      regGet "a-b-c" (onDisconnect pairedCollide "a").1.activeGames = none ∧
      (onMakeMove (onDisconnect pairedCollide "a").1 "b-c" 0 1).2
        = [("b-c", Msg.invalid_move msgNotInGame)] ∧
      gameOf rematchedCollide "b-c" = some ("a-b-c", newGame "c" "a-b") ∧
      (onMakeMove rematchedCollide "b-c" 0 1).2
        = [("b-c", Msg.invalid_move msgWrongPlayer)] ∧
      (onMakeMove rematchedCollide "b-c" 0 2).2
        = [("b-c", Msg.invalid_move msgWrongTurn)] ∧
      msgWrongPlayer ≠ msgNotInGame ∧ msgWrongTurn ≠ msgNotInGame :=
  ⟨by rfl, by rfl, by rfl, by rfl, by rfl, by rfl, by rfl, by decide, by decide⟩

/-! ## Matchmaking -/

theorem regSet_of_not_mem (k : String) (g : Game) (reg : List (String × Game))
    (h : k ∉ reg.map Prod.fst) : regSet k g reg = reg ++ [(k, g)] := by
  induction reg with
  | nil => rfl
  | cons x rest ih =>
    obtain ⟨k0, g0⟩ := x
    have h0 : k0 ≠ k := fun e => h (by simp [e])
    have h1 : k ∉ rest.map Prod.fst := fun hm => h (by simp at hm ⊢; exact Or.inr hm)
    simp [regSet, h0, ih h1]

theorem onConnection_registry (s : State) (id opp : String) (rest : List String)
    (h : s.waitingPlayers = opp :: rest) :
    (onConnection s id).1.activeGames
      = regSet (gameIdFor id opp) (newGame opp id) s.activeGames := by
  unfold onConnection
  rw [h]
  rfl

theorem connect_pair (s : State) (hq : s.waitingPlayers = []) (a b : String) :
    (onConnection s a).2 = [] ∧
      (onConnection (onConnection s a).1 b).2
        = [(a, Msg.game_start 1 1 createBoard), (b, Msg.game_start 2 1 createBoard)] ∧
      (onConnection (onConnection s a).1 b).1.waitingPlayers = [] ∧
      (onConnection (onConnection s a).1 b).1.activeGames
        = regSet (gameIdFor b a) (newGame a b) s.activeGames ∧
      Hosts (onConnection (onConnection s a).1 b).1 (gameIdFor b a) (newGame a b) a b := by
  have e1 : onConnection s a = ({ s with waitingPlayers := [a] }, []) := by
    unfold onConnection
    rw [hq]
    rfl
  have hw : (onConnection s a).1.waitingPlayers = a :: [] := by rw [e1]
  obtain ⟨c1, c2, c3⟩ := onConnection_creates (onConnection s a).1 b a [] hw
  obtain ⟨d1, d2⟩ := onConnection_gameId (onConnection s a).1 b a [] hw
  refine ⟨by rw [e1], c3, c2, ?_, d2, d1, c1, rfl⟩
  rw [onConnection_registry (onConnection s a).1 b a [] hw, e1]

theorem pairUp_length (n : Nat) : ∀ ids : List String, ids.length = 2 * n →
    (pairUp ids).length = n := by
  induction n with
  | zero =>
    intro ids h
    cases ids with
    | nil => rfl
    | cons a t => simp at h
  | succ n ih =>
    intro ids h
    match ids, h with
    | a :: b :: rest, h =>
      simp only [pairUp, List.length_cons] at h ⊢
      rw [ih rest (by omega)]


theorem fifo_aux (n : Nat) : ∀ (ids : List String) (s : State),
    ids.length = 2 * n → s.waitingPlayers = [] →
      (run s (ids.map Event.connect)).waitingPlayers = [] ∧
      trace s (ids.map Event.connect) = pairingOutputs (pairUp ids) ∧
      (∀ k, k < n → ∃ a b, ids[2 * k]? = some a ∧ ids[2 * k + 1]? = some b ∧
        (pairUp ids)[k]? = some (a, b) ∧
        Hosts (run s ((ids.take (2 * k + 2)).map Event.connect))
          (gameIdFor b a) (newGame a b) a b) ∧
      ((s.activeGames.map Prod.fst ++ (pairedSessions (pairUp ids)).map Prod.fst).Nodup →
        (run s (ids.map Event.connect)).activeGames
          = s.activeGames ++ pairedSessions (pairUp ids)) := by
  induction n with
  | zero =>
    intro ids s h hq
    cases ids with
    | nil =>
      refine ⟨hq, rfl, fun k hk => absurd hk (Nat.not_lt_zero k), fun _ => ?_⟩
      show s.activeGames = s.activeGames ++ []
      rw [List.append_nil]
    | cons a t => simp at h
  | succ n ih =>
    intro ids s h hq
    match ids, h with
    | a :: b :: rest, h =>
      obtain ⟨o1, o2, q2, r2, h2⟩ := connect_pair s hq a b
      have hlen : rest.length = 2 * n := by
        simp only [List.length_cons] at h
        omega
      obtain ⟨i1, i2, i3, i4⟩ := ih rest (onConnection (onConnection s a).1 b).1 hlen q2
      refine ⟨i1, ?_, ?_, ?_⟩
      · show (onConnection s a).2 :: (onConnection (onConnection s a).1 b).2
            :: trace (onConnection (onConnection s a).1 b).1 (rest.map Event.connect) = _
        rw [o1, o2, i2]
        rfl
      · intro k hk
        cases k with
        | zero => exact ⟨a, b, rfl, by simp, by simp [pairUp], h2⟩
        | succ k =>
          obtain ⟨a', b', e1, e2, e3, e4⟩ := i3 k (by omega)
          refine ⟨a', b', ?_, ?_, ?_, ?_⟩
          · rw [show 2 * (k + 1) = (2 * k + 1) + 1 by ring, List.getElem?_cons_succ,
              List.getElem?_cons_succ]
            exact e1
          · rw [show 2 * (k + 1) + 1 = (2 * k + 1 + 1) + 1 by ring, List.getElem?_cons_succ,
              List.getElem?_cons_succ]
            exact e2
          · rw [pairUp, List.getElem?_cons_succ]
            exact e3
          · rw [show 2 * (k + 1) + 2 = (2 * k + 2) + 1 + 1 by ring]
            exact e4
      · intro hnd
        have hnd' : (s.activeGames.map Prod.fst
            ++ gameIdFor b a :: (pairedSessions (pairUp rest)).map Prod.fst).Nodup := hnd
        have hfresh : gameIdFor b a ∉ s.activeGames.map Prod.fst := by
          intro hm
          have := List.nodup_append.mp hnd'
          exact this.2.2 hm (List.mem_cons_self _ _)
        have hreg : (onConnection (onConnection s a).1 b).1.activeGames
            = s.activeGames ++ [(gameIdFor b a, newGame a b)] := by
          rw [r2, regSet_of_not_mem _ _ _ hfresh]
        have hnd2 : ((onConnection (onConnection s a).1 b).1.activeGames.map Prod.fst
            ++ (pairedSessions (pairUp rest)).map Prod.fst).Nodup := by
          rw [hreg, List.map_append, List.append_assoc]
          exact hnd'
        have := i4 hnd2
        show (run (onConnection (onConnection s a).1 b).1 (rest.map Event.connect)).activeGames
          = s.activeGames ++ (gameIdFor b a, newGame a b) :: pairedSessions (pairUp rest)
        rw [this, hreg, List.append_assoc]
        rfl


/-- C11: matchmaking is strict FIFO. For `2n` arrivals handled from a state
with an empty queue, with no other event in between: the queue is empty
afterwards; `n` games are created, one at every second arrival, which emits
`game_start` to the two sockets of the pair and nothing else is emitted; right
after its creation, the game of the pair number `k` is held under its key with
the earlier arrival as player 1 and the later one as player 2, turn 1 and an
empty board, and both sockets are bound to it; and when the keys are new and
pairwise different, the registry afterwards is the old one followed by the `n`
new games in order. The arrivals need not be assumed distinct for this. -/
theorem matchmaking_fifo (n : Nat) (ids : List String) (hlen : ids.length = 2 * n)
    (s : State) (hq : s.waitingPlayers = []) :
    (run s (ids.map Event.connect)).waitingPlayers = [] ∧
      (pairUp ids).length = n ∧
      trace s (ids.map Event.connect) = pairingOutputs (pairUp ids) ∧
      (∀ k, k < n → ∃ a b, ids[2 * k]? = some a ∧ ids[2 * k + 1]? = some b ∧
        (pairUp ids)[k]? = some (a, b) ∧
        Hosts (run s ((ids.take (2 * k + 2)).map Event.connect))
          (gameIdFor b a) (newGame a b) a b) ∧
      ((s.activeGames.map Prod.fst ++ (pairedSessions (pairUp ids)).map Prod.fst).Nodup →
        (run s (ids.map Event.connect)).activeGames
          = s.activeGames ++ pairedSessions (pairUp ids)) := by
  obtain ⟨h1, h2, h3, h4⟩ := fifo_aux n ids s hlen hq
  exact ⟨h1, pairUp_length n ids hlen, h2, h3, h4⟩

/-- Witness for C11: the arrivals `A`, `B`, `C`, `D` at start-up give the
games of `(A, B)` and of `(C, D)`. -/
theorem matchmaking_fifo_witness :
    ["A", "B", "C", "D"].length = 2 * 2 ∧ State.init.waitingPlayers = [] ∧
      pairUp ["A", "B", "C", "D"] = [("A", "B"), ("C", "D")] ∧
      (run State.init (["A", "B", "C", "D"].map Event.connect)).waitingPlayers = [] ∧
      trace State.init (["A", "B", "C", "D"].map Event.connect)
        = pairingOutputs (pairUp ["A", "B", "C", "D"]) ∧
      (run State.init (["A", "B", "C", "D"].map Event.connect)).activeGames
        = State.init.activeGames ++ pairedSessions (pairUp ["A", "B", "C", "D"]) :=
  ⟨rfl, rfl, rfl,
    (matchmaking_fifo 2 ["A", "B", "C", "D"] rfl State.init rfl).1,
    (matchmaking_fifo 2 ["A", "B", "C", "D"] rfl State.init rfl).2.2.1,
    (matchmaking_fifo 2 ["A", "B", "C", "D"] rfl State.init rfl).2.2.2.2 (by decide)⟩


/-! ## Counting marks -/

theorem setCell_fin (b : Board) (i : Fin ROWS) (j : Fin COLS) (v : Int)
    (c : Fin ROWS × Fin COLS) :
    setCell b (i.val : Int) (j.val : Int) v c.1 c.2 = if c = (i, j) then v else b c.1 c.2 := by
  unfold setCell
  by_cases h : c = (i, j)
  · subst h
    simp
  · rw [if_neg h, if_neg]
    rintro ⟨h1, h2⟩
    apply h
    have e1 : c.1 = i := Fin.ext (by exact_mod_cast h1)
    have e2 : c.2 = j := Fin.ext (by exact_mod_cast h2)
    exact Prod.ext e1 e2

theorem card_setCell_add (b : Board) (i : Fin ROWS) (j : Fin COLS) (v : Int)
    (P : Int → Prop) [DecidablePred P] (h0 : ¬ P (b i j)) (hv : P v) :
    (Finset.univ.filter fun c : Fin ROWS × Fin COLS =>
        P (setCell b (i.val : Int) (j.val : Int) v c.1 c.2)).card
      = (Finset.univ.filter fun c : Fin ROWS × Fin COLS => P (b c.1 c.2)).card + 1 := by
  have e : (Finset.univ.filter fun c : Fin ROWS × Fin COLS =>
        P (setCell b (i.val : Int) (j.val : Int) v c.1 c.2))
      = insert (i, j) (Finset.univ.filter fun c : Fin ROWS × Fin COLS => P (b c.1 c.2)) := by
    ext c
    simp only [Finset.mem_filter, Finset.mem_univ, true_and, Finset.mem_insert, setCell_fin]
    by_cases h : c = (i, j)
    · simp [h, hv]
    · simp [h]
  rw [e, Finset.card_insert_of_not_mem]
  simp [h0]

theorem card_setCell_same (b : Board) (i : Fin ROWS) (j : Fin COLS) (v : Int)
    (P : Int → Prop) [DecidablePred P] (h : P (b i j) ↔ P v) :
    (Finset.univ.filter fun c : Fin ROWS × Fin COLS =>
        P (setCell b (i.val : Int) (j.val : Int) v c.1 c.2)).card
      = (Finset.univ.filter fun c : Fin ROWS × Fin COLS => P (b c.1 c.2)).card := by
  congr 1
  ext c
  simp only [Finset.mem_filter, Finset.mem_univ, true_and, setCell_fin]
  by_cases hc : c = (i, j)
  · subst hc
    simp [h]
  · simp [hc]

theorem makeMove_placed (b : Board) (col p : Int) (hv : isValidMove b col = true) :
    ∃ (i : Fin ROWS) (j : Fin COLS), b i j = 0 ∧
      (makeMove b col p).1 = setCell b (i.val : Int) (j.val : Int) p := by
  rcases makeMove_cases b col p with ⟨e, _⟩ | ⟨r, h0, _, e⟩
  · obtain ⟨q, hq⟩ := (makeMove_some_or_unchanged b col p).1 hv
    rw [e] at hq
    cases hq
  · obtain ⟨i, j, hi, hj, hb⟩ := cellAt_some_fin h0
    exact ⟨i, j, hb, by rw [e, hi, hj]⟩

theorem filled_makeMove (b : Board) (col p : Int) (hv : isValidMove b col = true)
    (hp : p ≠ 0) : filled (makeMove b col p).1 = filled b + 1 := by
  obtain ⟨i, j, hb, e⟩ := makeMove_placed b col p hv
  rw [e]
  unfold filled
  exact card_setCell_add b i j p (fun v => v ≠ 0) (by simp [hb]) hp

theorem countMarks_makeMove_self (b : Board) (col p : Int)
    (hv : isValidMove b col = true) (hp : p ≠ 0) :
    countMarks (makeMove b col p).1 p = countMarks b p + 1 := by
  obtain ⟨i, j, hb, e⟩ := makeMove_placed b col p hv
  rw [e]
  unfold countMarks
  exact card_setCell_add b i j p (fun v => v = p) (by rw [hb]; exact fun h => hp h.symm) rfl

theorem countMarks_makeMove_other (b : Board) (col p q : Int)
    (hv : isValidMove b col = true) (hq : q ≠ 0) (hpq : q ≠ p) :
    countMarks (makeMove b col p).1 q = countMarks b q := by
  obtain ⟨i, j, hb, e⟩ := makeMove_placed b col p hv
  rw [e]
  unfold countMarks
  refine card_setCell_same b i j p (fun v => v = q) ?_
  rw [hb]
  exact ⟨fun h => absurd h.symm hq, fun h => absurd h.symm hpq⟩

theorem filled_le (b : Board) : filled b ≤ 42 := by
  unfold filled
  have hc : (Finset.univ : Finset (Fin ROWS × Fin COLS)).card = 42 := by
    simp only [Finset.card_univ, Fintype.card_prod, Fintype.card_fin]
    rfl
  exact le_trans (Finset.card_filter_le _ _) (le_of_eq hc)

theorem filled_eq_iff (b : Board) :
    filled b = 42 ↔ ∀ (r : Fin ROWS) (c : Fin COLS), b r c ≠ 0 := by
  unfold filled
  have hc : (Finset.univ : Finset (Fin ROWS × Fin COLS)).card = 42 := by
    simp only [Finset.card_univ, Fintype.card_prod, Fintype.card_fin]
    rfl
  rw [← hc, Finset.card_filter_eq_iff]
  simp

theorem isBoardFull_iff_filled (b : Board) (hg : Gravity b) :
    isBoardFull b = true ↔ filled b = 42 := by
  rw [filled_eq_iff, isBoardFull_iff]
  constructor
  · intro h r c
    by_cases hr : r = ⟨0, by decide⟩
    · rw [hr]
      exact h c
    · refine hg c ⟨0, by decide⟩ r ?_ (h c)
      apply Fin.lt_def.mpr
      have : r.val ≠ 0 := fun h0 => hr (Fin.ext h0)
      show 0 < r.val
      omega
  · exact fun h c => h _ c


/-! ## The turn and mark-count invariant -/

theorem turnCount_newGame (a b : String) : TurnCount (newGame a b) := by
  refine ⟨Or.inl rfl, ?_⟩
  have h1 : countMarks (newGame a b).board 1 = 0 := by
    simp [countMarks, newGame, createBoard]
  have h2 : countMarks (newGame a b).board 2 = 0 := by
    simp [countMarks, newGame, createBoard]
  rw [h1, h2]
  rfl

theorem turnCount_continue {g : Game} (h : TurnCount g) (col : Int)
    (hv : isValidMove g.board col = true) :
    TurnCount { g with board := (makeMove g.board col g.turn).1,
                       lastMove := (makeMove g.board col g.turn).2,
                       turn := if g.turn = 1 then 2 else 1 } := by
  obtain ⟨ht, hc⟩ := h
  rcases ht with ht | ht
  · refine ⟨Or.inr (by simp [ht]), ?_⟩
    rw [ht] at hc ⊢
    have e1 := countMarks_makeMove_self g.board col 1 hv (by decide)
    have e2 := countMarks_makeMove_other g.board col 1 2 hv (by decide) (by decide)
    simp only [if_true] at hc ⊢
    rw [e1, e2]
    simp only [show ((2 : Int) = 1) = False from by decide, if_false]
    push_cast
    omega
  · refine ⟨Or.inl (by simp [ht]), ?_⟩
    rw [ht] at hc ⊢
    have e1 := countMarks_makeMove_self g.board col 2 hv (by decide)
    have e2 := countMarks_makeMove_other g.board col 2 1 hv (by decide) (by decide)
    simp only [show ((2 : Int) = 1) = False from by decide, if_false, if_true] at hc ⊢
    rw [e1, e2]
    push_cast
    omega

theorem not_gameOver_cases {s : State} {id : String} {col player : Int}
    (hno : ∀ o ∈ (onMakeMove s id col player).2, o.2.isGameOver = false) :
    (onMakeMove s id col player).1 = s ∨
      ∃ gid g, gameOf s id = some (gid, g) ∧ g.turn = player ∧
        isValidMove g.board col = true ∧
        checkWin (makeMove g.board col player).1 player (makeMove g.board col player).2
          = false ∧
        isBoardFull (makeMove g.board col player).1 = false ∧
        onMakeMove s id col player = applyMove s gid g col player := by
  rcases onMakeMove_cases s id col player with ⟨r, e, _⟩ | ⟨gid, g, hg, ht, _, hv, e⟩
  · exact Or.inl (by rw [e])
  · refine Or.inr ⟨gid, g, hg, ht, hv, ?_⟩
    rw [e] at hno
    cases hw : checkWin (makeMove g.board col player).1 player (makeMove g.board col player).2
    · cases hf : isBoardFull (makeMove g.board col player).1
      · exact ⟨rfl, rfl, e⟩
      · rw [applyMove_draw s gid g col player hw hf] at hno
        have := hno _ (List.mem_cons_self _ _)
        cases this
    · rw [applyMove_win s gid g col player hw] at hno
      have := hno _ (List.mem_cons_self _ _)
      cases this

theorem turnCount_step {s : State} {gid : String} {id : String} {col player : Int}
    (h : ∃ g, regGet gid s.activeGames = some g ∧ TurnCount g)
    (hno : ∀ o ∈ (onMakeMove s id col player).2, o.2.isGameOver = false) :
    ∃ g, regGet gid (onMakeMove s id col player).1.activeGames = some g ∧ TurnCount g := by
  rcases not_gameOver_cases hno with e | ⟨gid', g', hg, ht, hv, hw, hf, e⟩
  · rw [e]
    exact h
  · obtain ⟨g, hreg, htc⟩ := h
    rw [e, applyMove_continue s gid' g' col player hw hf]
    by_cases hk : gid = gid'
    · subst hk
      have hgg : g' = g := by
        have := (gameOf_some hg).2
        rw [hreg] at this
        exact (Option.some.inj this).symm
      subst hgg
      refine ⟨_, regGet_regSet_self gid _ s.activeGames, ?_⟩
      subst ht
      exact turnCount_continue htc col hv
    · refine ⟨g, ?_, htc⟩
      show regGet gid (regSet gid' _ s.activeGames) = some g
      rw [regGet_regSet_other gid' gid _ s.activeGames hk]
      exact hreg

theorem turnCount_run (subs : List (String × Int × Int)) :
    ∀ (s : State) (gid : String),
      (∃ g, regGet gid s.activeGames = some g ∧ TurnCount g) →
      (∀ out ∈ trace s (moveEvents subs), ∀ o ∈ out, o.2.isGameOver = false) →
      ∃ g, regGet gid (run s (moveEvents subs)).activeGames = some g ∧ TurnCount g := by
  induction subs with
  | nil => exact fun s gid h _ => h
  | cons m ms ih =>
    intro s gid h hno
    have h1 : ∀ o ∈ (onMakeMove s m.1 m.2.1 m.2.2).2, o.2.isGameOver = false :=
      hno _ (List.mem_cons_self _ _)
    exact ih (onMakeMove s m.1 m.2.1 m.2.2).1 gid (turnCount_step h h1)
      (fun out hout => hno out (List.mem_cons_of_mem _ hout))

/-- C18: turn and mark-count invariant. In the game reached from its creation
(empty board, turn 1) by any sequence of `make_move` submissions none of which
has produced `game_over`, `turn` is 1 or 2 and the number of marks of player 1
minus the number of marks of player 2 is 0 when `turn` is 1 and 1 when `turn`
is 2. -/
theorem turn_mark_count_invariant (s0 : State) (gid a b : String)
    (hnew : regGet gid s0.activeGames = some (newGame a b))
    (subs : List (String × Int × Int))
    (hno : ∀ out ∈ trace s0 (moveEvents subs), ∀ o ∈ out, o.2.isGameOver = false) :
    ∃ g, regGet gid (run s0 (moveEvents subs)).activeGames = some g ∧
      (g.turn = 1 ∨ g.turn = 2) ∧
      (countMarks g.board 1 : Int) - (countMarks g.board 2 : Int)
        = if g.turn = 1 then 0 else 1 :=
  turnCount_run subs s0 gid ⟨_, hnew, turnCount_newGame a b⟩ hno

/-- Witness for C18: three moves in the game of `A` and `B`. -/
theorem turn_mark_count_invariant_witness :
    regGet "B-A" pairedAB.activeGames = some (newGame "A" "B") ∧
      (∀ out ∈ trace pairedAB (moveEvents [("A", 3, 1), ("B", 4, 2), ("A", 3, 1)]),
        ∀ o ∈ out, o.2.isGameOver = false) ∧
      ∃ g, regGet "B-A"
          (run pairedAB (moveEvents [("A", 3, 1), ("B", 4, 2), ("A", 3, 1)])).activeGames
            = some g ∧
        (g.turn = 1 ∨ g.turn = 2) ∧
        (countMarks g.board 1 : Int) - (countMarks g.board 2 : Int)
          = if g.turn = 1 then 0 else 1 :=
  have hno : ∀ out ∈ trace pairedAB (moveEvents [("A", 3, 1), ("B", 4, 2), ("A", 3, 1)]),
      ∀ o ∈ out, o.2.isGameOver = false := by
    intro out hout o ho
    have h : ((trace pairedAB (moveEvents [("A", 3, 1), ("B", 4, 2), ("A", 3, 1)])).all
        fun out => out.all fun o => !o.2.isGameOver) = true := by rfl
    have := List.all_eq_true.mp (List.all_eq_true.mp h out hout) o ho
    simpa using this
  ⟨rfl, hno, turn_mark_count_invariant pairedAB "B-A" "A" "B" rfl _ hno⟩


/-! ## The draw -/

theorem trace_moveEvents_cons (s : State) (m : String × Int × Int)
    (ms : List (String × Int × Int)) :
    trace s (moveEvents (m :: ms))
      = (onMakeMove s m.1 m.2.1 m.2.2).2
          :: trace (onMakeMove s m.1 m.2.1 m.2.2).1 (moveEvents ms) := rfl

theorem draw_aux (gid a b : String) (subs : List (String × Int × Int)) :
    ∀ (s : State) (g : Game), Hosts s gid g a b → Gravity g.board →
      (g.turn = 1 ∨ g.turn = 2) → filled g.board ≤ 41 →
      (∀ m ∈ subs, s.gameIdOf m.1 = some gid) →
      (∀ out ∈ trace s (moveEvents subs),
        rejected out = false ∧ ∀ o ∈ out, o.2.isWin = false) →
      subs.length + filled g.board ≤ 42 ∧
        ∀ i out, (trace s (moveEvents subs))[i]? = some out →
          (i + filled g.board < 41 →
            ∃ B t, out = [(a, Msg.move_made B t), (b, Msg.move_made B t)]) ∧
          (i + filled g.board = 41 →
            ∃ B, isBoardFull B = true ∧
              out = [(a, Msg.game_over B none), (b, Msg.game_over B none)]) := by
  induction subs with
  | nil =>
    intro s g _ _ _ hk _ _
    refine ⟨by simp; omega, ?_⟩
    intro i out h
    simp [moveEvents, trace] at h
  | cons m ms ih =>
    intro s g hh hgr hturn hk hon hacc
    rw [trace_moveEvents_cons] at hacc
    have hacc0 := hacc _ (List.mem_cons_self _ _)
    have hid := hon m (List.mem_cons_self _ _)
    have hgo : gameOf s m.1 = some (gid, g) := gameOf_of hid hh.2.2.1
    obtain ⟨gid', g', hg', ht, _, hv, e⟩ := accepted_cases hacc0.1
    rw [hgo] at hg'
    simp only [Option.some.injEq, Prod.mk.injEq] at hg'
    obtain ⟨e1, e2⟩ := hg'
    subst e1
    subst e2
    have hp0 : m.2.2 ≠ 0 := by
      rw [← ht]
      rcases hturn with h | h <;> rw [h] <;> decide
    have hfill := filled_makeMove g.board m.2.1 m.2.2 hv hp0
    have hgr' := gravity_makeMove g.board m.2.1 m.2.2 hgr
    have hpl : g.players = ⟨a, b⟩ := hh.2.2.2
    cases hw : checkWin (makeMove g.board m.2.1 m.2.2).1 m.2.2
        (makeMove g.board m.2.1 m.2.2).2
    · cases hf : isBoardFull (makeMove g.board m.2.1 m.2.2).1
      · -- the game goes on
        have e' := applyMove_continue s gid g m.2.1 m.2.2 hw hf
        have hlt : filled (makeMove g.board m.2.1 m.2.2).1 ≤ 41 := by
          have h42 := filled_le (makeMove g.board m.2.1 m.2.2).1
          have hne : filled (makeMove g.board m.2.1 m.2.2).1 ≠ 42 := by
            intro h
            rw [(isBoardFull_iff_filled _ hgr').mpr h] at hf
            cases hf
          omega
        have hs' : (onMakeMove s m.1 m.2.1 m.2.2).1
            = { s with activeGames := regSet gid ({ g with
                  board := (makeMove g.board m.2.1 m.2.2).1,
                  lastMove := (makeMove g.board m.2.1 m.2.2).2,
                  turn := if m.2.2 = 1 then 2 else 1 }) s.activeGames } := by
          rw [e, e']
        have hturn' : (if m.2.2 = 1 then (2 : Int) else 1) = 1
            ∨ (if m.2.2 = 1 then (2 : Int) else 1) = 2 := by
          by_cases h1 : m.2.2 = 1
          · exact Or.inr (by simp [h1])
          · exact Or.inl (by simp [h1])
        have hh2 : Hosts (onMakeMove s m.1 m.2.1 m.2.2).1 gid
            ⟨(makeMove g.board m.2.1 m.2.2).1, g.players, if m.2.2 = 1 then 2 else 1,
              (makeMove g.board m.2.1 m.2.2).2⟩ a b := by
          rw [hs']
          exact hosts_regSet hh _ rfl
        have hon2 : ∀ m' ∈ ms, (onMakeMove s m.1 m.2.1 m.2.2).1.gameIdOf m'.1 = some gid := by
          rw [hs']
          exact fun m' hm' => hon m' (List.mem_cons_of_mem _ hm')
        have hrec := ih (onMakeMove s m.1 m.2.1 m.2.2).1
          ⟨(makeMove g.board m.2.1 m.2.2).1, g.players, if m.2.2 = 1 then 2 else 1,
            (makeMove g.board m.2.1 m.2.2).2⟩ hh2 hgr' hturn' hlt hon2
          (fun out hout => hacc out (List.mem_cons_of_mem _ hout))
        obtain ⟨r1, r2⟩ := hrec
        have hfill' : filled (makeMove g.board m.2.1 m.2.2).1 = filled g.board + 1 := hfill
        refine ⟨by simp only [List.length_cons]; simp only [hfill'] at r1; omega, ?_⟩
        intro i out hi
        rw [trace_moveEvents_cons] at hi
        cases i with
        | zero =>
          simp only [List.getElem?_cons_zero, Option.some.injEq] at hi
          refine ⟨fun _ => ⟨(makeMove g.board m.2.1 m.2.2).1, if m.2.2 = 1 then 2 else 1, ?_⟩,
            fun h41 => ?_⟩
          · rw [← hi, e, e', hpl]
          · omega
        | succ i =>
          rw [List.getElem?_cons_succ] at hi
          have := r2 i out hi
          simp only [hfill'] at this
          exact ⟨fun h => this.1 (by omega), fun h => this.2 (by omega)⟩
      · -- the board is full: the game is drawn and no later submission is accepted
        have e' := applyMove_draw s gid g m.2.1 m.2.2 hw hf
        have h42 : filled (makeMove g.board m.2.1 m.2.2).1 = 42 :=
          (isBoardFull_iff_filled _ hgr').mp hf
        have hs' : (onMakeMove s m.1 m.2.1 m.2.2).1
            = { s with activeGames := regSet gid ({ g with
                  board := (makeMove g.board m.2.1 m.2.2).1,
                  lastMove := (makeMove g.board m.2.1 m.2.2).2 }) s.activeGames } := by
          rw [e, e']
        have hms : ms = [] := by
          cases ms with
          | nil => rfl
          | cons m' ms' =>
            exfalso
            have hacc1 := (hacc _ (List.mem_cons_of_mem _
              (by rw [trace_moveEvents_cons]; exact List.mem_cons_self _ _))).1
            have hid' := hon m' (List.mem_cons_of_mem _ (List.mem_cons_self _ _))
            have hgo' : gameOf (onMakeMove s m.1 m.2.1 m.2.2).1 m'.1
                = some (gid, ⟨(makeMove g.board m.2.1 m.2.2).1, g.players, g.turn,
                    (makeMove g.board m.2.1 m.2.2).2⟩) := by
              rw [hs']
              exact gameOf_of hid' (regGet_regSet_self gid _ s.activeGames)
            have := (@onMakeMove_of_failed_check _ _ _ _ m'.2.1 m'.2.2 hgo'
              (Or.inr (Or.inr (isValidMove_false_of_full hf _)))).2
            rw [this] at hacc1
            cases hacc1
        subst hms
        refine ⟨by simp only [List.length_cons, List.length_nil]; omega, ?_⟩
        intro i out hi
        rw [trace_moveEvents_cons] at hi
        cases i with
        | zero =>
          simp only [List.getElem?_cons_zero, Option.some.injEq] at hi
          refine ⟨fun h => ?_, fun _ => ⟨(makeMove g.board m.2.1 m.2.2).1, hf, ?_⟩⟩
          · omega
          · rw [← hi, e, e', hpl]
        | succ i =>
          rw [List.getElem?_cons_succ] at hi
          simp [moveEvents, trace] at hi
    · exfalso
      rw [e, applyMove_win s gid g m.2.1 m.2.2 hw] at hacc0
      have := hacc0.2 _ (List.mem_cons_self _ _)
      cases this


theorem filled_createBoard : filled createBoard = 0 := by
  simp [filled, createBoard]

theorem drawSubs_accepted :
    ∀ out ∈ trace pairedAB (moveEvents drawSubs),
      rejected out = false ∧ ∀ o ∈ out, o.2.isWin = false := by
  have h : ((trace pairedAB (moveEvents drawSubs)).all fun out =>
      !rejected out && out.all fun o => !o.2.isWin) = true := by rfl
  intro out hout
  have h1 := List.all_eq_true.mp h out hout
  simp only [Bool.and_eq_true, Bool.not_eq_true', List.all_eq_true] at h1
  exact ⟨h1.1, h1.2⟩

/-- C15: the draw. In a newly created game of `a` and `b`, for every
sequence of submissions on that game that are all accepted and none of which
wins, there are at most 42 of them, each of the first 41 emits `move_made` to
both sockets (and so no `game_over`), and the 42nd, which fills the board,
emits `game_over` with winner `null` to both sockets. Such a sequence of 42
submissions exists: `drawSubs` in the game of `A` and `B`. -/
theorem draw_end_to_end :
    (∀ (s0 : State) (gid a b : String), Hosts s0 gid (newGame a b) a b →
      ∀ subs : List (String × Int × Int),
        (∀ m ∈ subs, s0.gameIdOf m.1 = some gid) →
        (∀ out ∈ trace s0 (moveEvents subs),
          rejected out = false ∧ ∀ o ∈ out, o.2.isWin = false) →
        subs.length ≤ 42 ∧
          ∀ k out, (trace s0 (moveEvents subs))[k]? = some out →
            (k < 41 → ∃ B t, out = [(a, Msg.move_made B t), (b, Msg.move_made B t)]) ∧
            (k = 41 → ∃ B, isBoardFull B = true ∧
              out = [(a, Msg.game_over B none), (b, Msg.game_over B none)])) ∧
      (Hosts pairedAB "B-A" (newGame "A" "B") "A" "B" ∧ drawSubs.length = 42 ∧
        (∀ m ∈ drawSubs, pairedAB.gameIdOf m.1 = some "B-A") ∧
        ∀ out ∈ trace pairedAB (moveEvents drawSubs),
          rejected out = false ∧ ∀ o ∈ out, o.2.isWin = false) := by
  constructor
  · intro s0 gid a b hh subs hon hacc
    have h := draw_aux gid a b subs s0 (newGame a b) hh gravity_createBoard (Or.inl rfl)
      (by show filled createBoard ≤ 41; rw [filled_createBoard]; exact Nat.zero_le _) hon hacc
    have hz : filled (newGame a b).board = 0 := filled_createBoard
    rw [hz] at h
    exact ⟨h.1, fun k out hk => h.2 k out hk⟩
  · refine ⟨hosts_paired "A" "B", rfl, ?_, drawSubs_accepted⟩
    have h : (drawSubs.all fun m => pairedAB.gameIdOf m.1 == some "B-A") = true := by rfl
    intro m hm
    have := List.all_eq_true.mp h m hm
    simpa using this

/-- Witness for C15: the drawn game `drawSubs` of `A` and `B`. -/
theorem draw_end_to_end_witness :
    drawSubs.length ≤ 42 ∧
      ∀ k out, (trace pairedAB (moveEvents drawSubs))[k]? = some out →
        (k < 41 → ∃ B t, out = [("A", Msg.move_made B t), ("B", Msg.move_made B t)]) ∧
        (k = 41 → ∃ B, isBoardFull B = true ∧
          out = [("A", Msg.game_over B none), ("B", Msg.game_over B none)]) :=
  draw_end_to_end.1 pairedAB "B-A" "A" "B" draw_end_to_end.2.1 drawSubs
    draw_end_to_end.2.2.2.1 draw_end_to_end.2.2.2.2


end Server
